import Mathlib

/-!
# LibKeyFinder: the streaming chromagram pipeline of `keyfinder.cpp`

A shallow embedding of `KeyFinder::preprocess`, `KeyFinder::progressiveChromagram`,
`KeyFinder::chromagramOfBufferedAudio`, `KeyFinder::finalChromagram` and
`KeyFinder::stringForKey`, followed by theorems about buffer bookkeeping, zero padding,
chunking and the key-name table.

Conventions of the embedding:

* Sample values are exact rationals (`ℚ`). The cut-off frequencies and the decimation factor,
  which the code computes in `double`, are computed with IEEE 754 binary64 rounding (round to
  nearest, ties to even, gradual underflow, overflow to infinity), see `roundDouble`.
* Sample counts are natural numbers; the `unsigned int` arithmetic of the zero-padding step,
  where wrap-around really occurs, is written with explicit reduction modulo `2 ^ 32`.
* Operations that can throw return `Except Error _`; mutation of the `Workspace&` argument is
  explicit state passing.
* The classes `AudioData`, `LowPassFilter`, `SpectrumAnalyser`, the enumeration `key_t` and the
  constants `FFTFRAMESIZE`, `HOPSIZE` are used by `keyfinder.cpp` but declared elsewhere; they
  are modelled from the specification or taken as fields of `KeyFinder`.
-/

namespace LibKeyFinder

/-! ## Errors -/

/-- Failure conditions of the pipeline. `divisionByZero` stands for the undefined behaviour of
an `unsigned int` modulo whose divisor is zero, `undefinedConversion` for the undefined
behaviour of converting to `int` a `double` that is infinite, not a number or out of range. -/
inductive Error where
  | channelMismatch
  | insufficientSamples
  | invalidFactor
  | invalidConfiguration
  | divisionByZero
  | undefinedConversion
  deriving DecidableEq

deriving instance DecidableEq for Except

/-! ## AudioData -/

/-- Modelled from the spec: the `AudioData` class (the spec's SampleBuffer / AudioChunk), an
ordered sequence of interleaved samples with a channel count and a frame rate. A freshly
constructed buffer is empty with zero channels and frame rate zero. -/
structure AudioData where
  samples : List ℚ
  channels : ℕ
  frameRate : ℕ
  deriving DecidableEq

namespace AudioData

/-- Modelled from the spec: a default-constructed `AudioData`. -/
def empty : AudioData := ⟨[], 0, 0⟩

/-- Modelled from the spec: `AudioData::getChannels`. -/
def getChannels (a : AudioData) : ℕ := a.channels

/-- Modelled from the spec: `AudioData::getFrameRate`. -/
def getFrameRate (a : AudioData) : ℕ := a.frameRate

/-- Modelled from the spec: `AudioData::getSampleCount`, the number of stored samples. -/
def getSampleCount (a : AudioData) : ℕ := a.samples.length

/-- Modelled from the spec: `AudioData::getFrameCount`, samples per channel (zero for a buffer
without channels, which holds no samples when well formed). -/
def getFrameCount (a : AudioData) : ℕ := a.samples.length / a.channels

/-- Modelled from the spec: the AudioChunk invariant, the sample count is a multiple of the
channel count (so a buffer without channels holds no samples). -/
def WellFormed (a : AudioData) : Prop := a.channels ∣ a.samples.length

instance (a : AudioData) : Decidable a.WellFormed := by
  unfold WellFormed; infer_instance

/-- The mono mix of interleaved samples: frame `i` becomes the mean of its `c` channels. -/
def monoSamples (c : ℕ) (xs : List ℚ) : List ℚ :=
  (List.range (xs.length / c)).map fun i => ((xs.drop (i * c)).take c).sum / (c : ℚ)

/-- Modelled from the spec: `AudioData::reduceToMono` averages the channels in place; a buffer
that is already mono (or has no channels) is left alone. -/
def reduceToMono (a : AudioData) : AudioData :=
  if a.channels < 2 then a
  else { samples := monoSamples a.channels a.samples, channels := 1, frameRate := a.frameRate }

/-- A buffer that was never given audio takes over the channel count and frame rate of the
first audio joined to it. -/
def adoptFormat (self that : AudioData) : AudioData :=
  if self.channels = 0 then
    { self with channels := that.channels, frameRate := that.frameRate }
  else self

/-- Modelled from the spec: `AudioData::append` concatenates in time order and validates the
channel count (ChannelMismatch otherwise). -/
def append (self that : AudioData) : Except Error AudioData :=
  let self1 := self.adoptFormat that
  if self1.channels ≠ that.channels then .error .channelMismatch
  else .ok { self1 with samples := self1.samples ++ that.samples }

/-- Modelled from the spec: `AudioData::prepend` inserts before the existing content, with the
same validation as `append`. -/
def prepend (self that : AudioData) : Except Error AudioData :=
  let self1 := self.adoptFormat that
  if self1.channels ≠ that.channels then .error .channelMismatch
  else .ok { self1 with samples := that.samples ++ self1.samples }

/-- Modelled from the spec: `AudioData::sliceSamplesFromBack n` removes and returns the last `n`
samples (InsufficientSamples if `n` exceeds the length). The result is the pair of the slice
and the shortened buffer. -/
def sliceSamplesFromBack (self : AudioData) (n : ℕ) : Except Error (AudioData × AudioData) :=
  if self.samples.length < n then .error .insufficientSamples
  else .ok ({ self with samples := self.samples.drop (self.samples.length - n) },
            { self with samples := self.samples.take (self.samples.length - n) })

/-- Modelled from the spec: `AudioData::discardFramesFromFront k` drops `k` consumed frames
(InsufficientSamples if the buffer holds fewer frames). -/
def discardFramesFromFront (self : AudioData) (k : ℕ) : Except Error AudioData :=
  if self.getFrameCount < k then .error .insufficientSamples
  else .ok { self with samples := self.samples.drop (k * self.channels) }

/-- Modelled from the spec: `AudioData::addToSampleCount k` pads with `k` trailing zero
samples. -/
def addToSampleCount (self : AudioData) (k : ℕ) : AudioData :=
  { self with samples := self.samples ++ List.replicate k 0 }

/-- Every `f`-th sample, starting with the first. -/
def decimate (f : ℕ) (xs : List ℚ) : List ℚ :=
  (List.range ((xs.length + f - 1) / f)).map fun i => xs.getD (i * f) 0

/-- Modelled from the spec: `AudioData::downsample factor` keeps every `factor`-th frame and
divides the frame rate; InvalidFactor if the factor is zero. -/
def downsample (self : AudioData) (factor : ℕ) : Except Error AudioData :=
  if factor = 0 then .error .invalidFactor
  else .ok { self with samples := decimate factor self.samples,
                       frameRate := self.frameRate / factor }

end AudioData

/-! ## Collaborators -/

/-- Modelled from the spec: a `LowPassFilter` instance, as called in
`lpf->filter(workingAudio, workspace, downsampleFactor)`. `filter xs buffer k` gives the
filtered chunk and the new content of the state that the filter keeps in the workspace it is
handed (it touches nothing else there); `k` is the decimation factor passed through as a
shortcut hint. Filtering is in place, so the sample count is kept. The class is declared
outside `keyfinder.cpp`: which filter it is, is left open here. -/
structure LowPassFilter where
  filter : List ℚ → List ℚ → ℕ → List ℚ × List ℚ
  length_filter : ∀ xs buffer k, (filter xs buffer k).1.length = xs.length

/-- The key finder object: the build constants `FFTFRAMESIZE` and `HOPSIZE`, the configured last
frequency, the low-pass filter factory (order, frame rate, corner frequency as a `double` with
`none` for an infinity, FFT frame size of the design) and the per-frame spectrum analyser
(frame rate, one frame of samples, giving one chroma vector). -/
structure KeyFinder where
  FFTFRAMESIZE : ℕ
  HOPSIZE : ℕ
  lastFrequency : ℚ
  lpfFactory : ℕ → ℕ → Option ℚ → ℕ → LowPassFilter
  analyser : ℕ → List ℚ → List ℚ

/-- Modelled from the spec: the `Workspace` of one key-detection session. A null `chromagram`
or `fftAdapter` pointer is `none`; the adapter is represented by its frame size. `lpfBuffer`
stands for what the low-pass filter keeps, from call to call, in the workspace that
`preprocess` hands it; the spec lists no such state. -/
structure Workspace where
  preprocessedBuffer : AudioData
  remainderBuffer : AudioData
  chromagram : Option (List (List ℚ))
  fftAdapter : Option ℕ
  lpfBuffer : List ℚ
  deriving DecidableEq

namespace Workspace

/-- Modelled from the spec: a freshly constructed `Workspace`. -/
def fresh : Workspace := ⟨AudioData.empty, AudioData.empty, none, none, []⟩

/-- The number of hops accumulated in the chromagram (zero while the pointer is null). -/
def hops (w : Workspace) : ℕ := (w.chromagram.getD []).length

/-- The buffers of a workspace hold mono audio or nothing yet, and satisfy the AudioChunk
invariant. -/
def WellFormed (w : Workspace) : Prop :=
  w.remainderBuffer.channels ≤ 1 ∧ w.remainderBuffer.WellFormed ∧
  w.preprocessedBuffer.channels ≤ 1 ∧ w.preprocessedBuffer.WellFormed

instance (w : Workspace) : Decidable w.WellFormed := by
  unfold WellFormed; infer_instance

end Workspace

/-! ## The spectrum analyser over whole frames -/

/-- Window extraction with an explicit step budget: while a whole frame is buffered, analyse
it and advance by one hop. -/
def wholeFrames (analyse : List ℚ → List ℚ) (frame hop : ℕ) : ℕ → List ℚ → List (List ℚ)
  | 0, _ => []
  | fuel + 1, buf =>
    if frame ≤ buf.length then
      analyse (buf.take frame) :: wholeFrames analyse frame hop fuel (buf.drop hop)
    else []

/-- Modelled from the spec: `SpectrumAnalyser::chromagramOfWholeFrames` repeatedly extracts
whole FFT-frame windows, advancing by one hop per window, until fewer samples remain than one
full frame; one chroma vector per window. The budget `length` is never exhausted when the hop
and frame sizes are positive. -/
def chromagramOfWholeFrames (kf : KeyFinder) (audio : AudioData) : List (List ℚ) :=
  wholeFrames (kf.analyser audio.frameRate) kf.FFTFRAMESIZE kf.HOPSIZE
    audio.samples.length audio.samples

/-! ## keyfinder.cpp -/

/-! ### Arithmetic in `double` -/

/-- The integer nearest to `n / d`, ties going to the even one (`d` positive). -/
def roundHalfEven (n d : ℕ) : ℕ :=
  if 2 * (n % d) < d then n / d
  else if d < 2 * (n % d) then n / d + 1
  else if n / d % 2 = 0 then n / d else n / d + 1

/-- The number of binary digits of `n`, by halving at most `fuel` times. -/
def bitLength : ℕ → ℕ → ℕ
  | 0, _ => 0
  | fuel + 1, n => if n = 0 then 0 else bitLength fuel (n / 2) + 1

/-- The position of the leading binary digit of a positive `n`. -/
def log2Floor (n : ℕ) : ℕ := bitLength n n - 1

/-- The integer `k` with `2 ^ k ≤ a / b < 2 ^ (k + 1)`, for positive `a` and `b`. -/
def floorLog2 (a b : ℕ) : ℤ :=
  if log2Floor b ≤ log2Floor a then
    (if b * 2 ^ (log2Floor a - log2Floor b) ≤ a then ((log2Floor a - log2Floor b : ℕ) : ℤ)
     else ((log2Floor a - log2Floor b : ℕ) : ℤ) - 1)
  else
    (if b ≤ a * 2 ^ (log2Floor b - log2Floor a) then -((log2Floor b - log2Floor a : ℕ) : ℤ)
     else -((log2Floor b - log2Floor a : ℕ) : ℤ) - 1)

/-- The significand of `a / b` in units of `2 ^ e`, rounded to nearest, ties to even. -/
def significand (a b : ℕ) (e : ℤ) : ℕ :=
  if 0 ≤ e then roundHalfEven a (b * 2 ^ e.toNat) else roundHalfEven (a * 2 ^ (-e).toNat) b

/-- The rational `m * 2 ^ e`. -/
def scaleByPowerOfTwo (m : ℕ) (e : ℤ) : ℚ :=
  if 0 ≤ e then ((m * 2 ^ e.toNat : ℕ) : ℚ) else ((m : ℕ) : ℚ) / ((2 ^ (-e).toNat : ℕ) : ℚ)

/-- The positive `a / b` rounded to a significand of 53 binary digits, the unit never below
`2 ^ (-1074)` (gradual underflow). -/
def roundMagnitude (a b : ℕ) : ℚ :=
  scaleByPowerOfTwo (significand a b (max (floorLog2 a b - 52) (-1074)))
    (max (floorLog2 a b - 52) (-1074))

/-- A rounded magnitude with its sign, or `none` when it has reached `2 ^ 1024` (overflow to
an infinity). -/
def finiteOrOverflow (negative : Bool) (v : ℚ) : Option ℚ :=
  if ((2 ^ 1024 : ℕ) : ℚ) ≤ v then none else if negative then some (-v) else some v

/-- The IEEE 754 binary64 value of a real number under round to nearest, ties to even; `none`
stands for an infinity. This is the `double` a C++ literal, product or quotient evaluates
to. -/
def roundDouble (q : ℚ) : Option ℚ :=
  if q = 0 then some 0
  else finiteOrOverflow (decide (q < 0)) (roundMagnitude q.num.natAbs q.den)

/-- The `double` product of two `double`s, neither of them zero times an infinity. -/
def mulDouble (x y : Option ℚ) : Option ℚ :=
  match x, y with
  | some a, some b => roundDouble (a * b)
  | _, _ => none

/-- The value of `double lpfCutoff = getLastFrequency() * 1.012`. -/
def lpfCutoff (kf : KeyFinder) : Option ℚ :=
  mulDouble (roundDouble kf.lastFrequency) (roundDouble 1.012)

/-- The value of `double dsCutoff = getLastFrequency() * 1.10`. -/
def dsCutoff (kf : KeyFinder) : Option ℚ :=
  mulDouble (roundDouble kf.lastFrequency) (roundDouble 1.10)

/-- The `double` quotient `frameRate / 2 / dsCutoff`: the frame rate is an unsigned integer,
so its halving is an integer division, and the half converts to `double` exactly. A finite
value divided by an infinity is zero; `none` stands for an infinity or not-a-number (division
by zero, overflow). -/
def factorQuotient (kf : KeyFinder) (frameRate : ℕ) : Option ℚ :=
  match dsCutoff kf with
  | none => some 0
  | some c => if c = 0 then none else roundDouble (((frameRate / 2 : ℕ) : ℚ) / c)

/-- The value of `unsigned int downsampleFactor = (int) floor(frameRate / 2 / dsCutoff)`:
`none` where the conversion to `int` is undefined (the floor is infinite, not a number, or
outside the range of `int`), otherwise the `int` converted to `unsigned int`. -/
def convertedFactor (kf : KeyFinder) (frameRate : ℕ) : Option ℕ :=
  match factorQuotient kf frameRate with
  | none => none
  | some v =>
    if -2147483648 ≤ ⌊v⌋ ∧ ⌊v⌋ < 2147483648 then some (⌊v⌋ % 4294967296).toNat else none

/-- The decimation factor the code computes for a frame rate, and 0 where the conversion
is undefined; so `0 < downsampleFactor kf frameRate` says that the code computes a positive
factor. -/
def downsampleFactor (kf : KeyFinder) (frameRate : ℕ) : ℕ :=
  (convertedFactor kf frameRate).getD 0

/-! ### The pipeline -/

/-- `KeyFinder::preprocess`: mono reduction, re-attachment of the carried remainder, computation
of the decimation factor, slicing of the new remainder unless flushing, low-pass filtering and
decimation. Returns the processed working audio and the updated workspace. -/
def preprocess (kf : KeyFinder) (workingAudio : AudioData) (workspace : Workspace)
    (flushRemainderBuffer : Bool) : Except Error (AudioData × Workspace) := do
  let workingAudio := workingAudio.reduceToMono
  let (workingAudio, workspace) ←
    if workspace.remainderBuffer.getChannels > 0 then do
      let wa ← workingAudio.prepend workspace.remainderBuffer
      let rb ← workspace.remainderBuffer.discardFramesFromFront
        workspace.remainderBuffer.getFrameCount
      pure (wa, { workspace with remainderBuffer := rb })
    else pure (workingAudio, workspace)
  let lpfCutoff := lpfCutoff kf
  if (convertedFactor kf workingAudio.getFrameRate).isNone then
    throw Error.undefinedConversion
  let downsampleFactor := downsampleFactor kf workingAudio.getFrameRate
  if downsampleFactor = 0 then throw Error.divisionByZero
  let bufferExcess := workingAudio.getSampleCount % downsampleFactor
  let (workingAudio, workspace) ←
    if !flushRemainderBuffer && bufferExcess != 0 then do
      let (remainder, wa) ← workingAudio.sliceSamplesFromBack bufferExcess
      let rb ← workspace.remainderBuffer.append remainder
      pure (wa, { workspace with remainderBuffer := rb })
    else pure (workingAudio, workspace)
  let lpf := kf.lpfFactory 160 workingAudio.getFrameRate lpfCutoff 2048
  let filtered := lpf.filter workingAudio.samples workspace.lpfBuffer downsampleFactor
  let workingAudio := { workingAudio with samples := filtered.1 }
  let workspace := { workspace with lpfBuffer := filtered.2 }
  let workingAudio ← workingAudio.downsample downsampleFactor
  pure (workingAudio, workspace)

/-- `KeyFinder::chromagramOfBufferedAudio`: analyse the whole frames of the preprocessed
buffer, discard the consumed hops from its front and append the new chroma vectors to the
chromagram. -/
def chromagramOfBufferedAudio (kf : KeyFinder) (workspace : Workspace) :
    Except Error Workspace := do
  let fftAdapter := match workspace.fftAdapter with
    | none => some kf.FFTFRAMESIZE
    | some a => some a
  let c := chromagramOfWholeFrames kf workspace.preprocessedBuffer
  let pb ← workspace.preprocessedBuffer.discardFramesFromFront (kf.HOPSIZE * c.length)
  let chromagram := match workspace.chromagram with
    | none => c
    | some old => old ++ c
  pure { workspace with preprocessedBuffer := pb, chromagram := some chromagram,
                        fftAdapter := fftAdapter }

/-- `KeyFinder::progressiveChromagram`: preprocess the chunk, append it to the preprocessed
buffer and analyse what is buffered. -/
def progressiveChromagram (kf : KeyFinder) (audio : AudioData) (workspace : Workspace) :
    Except Error Workspace := do
  let (audio, workspace) ← preprocess kf audio workspace false
  let pb ← workspace.preprocessedBuffer.append audio
  chromagramOfBufferedAudio kf { workspace with preprocessedBuffer := pb }

/-- The first block of `KeyFinder::finalChromagram` (`// flush remainder buffer`): when the
remainder buffer holds samples, an empty `AudioData flush` is preprocessed with
`flushRemainderBuffer = true`; the local `flush` then goes out of scope. -/
def flushRemainderBuffer (kf : KeyFinder) (workspace : Workspace) : Except Error Workspace :=
  if workspace.remainderBuffer.getSampleCount > 0 then do
    let (_, workspace) ← preprocess kf AudioData.empty workspace true
    pure workspace
  else pure workspace

/-- The value of `unsigned int paddedHopCount = ceil(sampleCount / (double)HOPSIZE)`, for a
positive hop size. -/
def paddedHopCount (kf : KeyFinder) (sampleCount : ℕ) : ℕ :=
  ⌈(sampleCount : ℚ) / (kf.HOPSIZE : ℚ)⌉₊ % 4294967296

/-- The value of `unsigned int finalSampleLength = FFTFRAMESIZE + ((paddedHopCount - 1) *
HOPSIZE)` in 32-bit unsigned arithmetic. -/
def finalSampleLength (kf : KeyFinder) (sampleCount : ℕ) : ℕ :=
  (kf.FFTFRAMESIZE +
    ((paddedHopCount kf sampleCount + 4294967296 - 1) % 4294967296 * kf.HOPSIZE) % 4294967296)
    % 4294967296

/-- The argument `finalSampleLength - getSampleCount()` of `addToSampleCount`, an unsigned
32-bit difference. -/
def padAmount (kf : KeyFinder) (sampleCount : ℕ) : ℕ :=
  (finalSampleLength kf sampleCount + 4294967296 - sampleCount % 4294967296) % 4294967296

/-- The second block of `KeyFinder::finalChromagram` (`// zero padding`). -/
def zeroPadding (kf : KeyFinder) (workspace : Workspace) : Workspace :=
  { workspace with
    preprocessedBuffer := workspace.preprocessedBuffer.addToSampleCount
      (padAmount kf workspace.preprocessedBuffer.getSampleCount) }

/-- `KeyFinder::finalChromagram`: flush the remainder buffer, zero-pad the preprocessed buffer
and analyse it. -/
def finalChromagram (kf : KeyFinder) (workspace : Workspace) : Except Error Workspace := do
  let workspace ← flushRemainderBuffer kf workspace
  chromagramOfBufferedAudio kf (zeroPadding kf workspace)

/-- Modelled from the spec: the enumeration `key_t` (the spec's KeyResult), 24 tonal centres
named as in the `case` labels of `stringForKey`, and the silence sentinel. -/
inductive key_t where
  | A_MAJOR | A_MINOR | B_FLAT_MAJOR | B_FLAT_MINOR | B_MAJOR | B_MINOR
  | C_MAJOR | C_MINOR | D_FLAT_MAJOR | D_FLAT_MINOR | D_MAJOR | D_MINOR
  | E_FLAT_MAJOR | E_FLAT_MINOR | E_MAJOR | E_MINOR | F_MAJOR | F_MINOR
  | G_FLAT_MAJOR | G_FLAT_MINOR | G_MAJOR | G_MINOR | A_FLAT_MAJOR | A_FLAT_MINOR
  | SILENCE
  deriving DecidableEq

/-- `KeyFinder::stringForKey`. -/
def stringForKey (key : key_t) : String :=
  match key with
  | .A_MAJOR => "A major"
  | .A_MINOR => "A minor"
  | .B_FLAT_MAJOR => "B♭ major"
  | .B_FLAT_MINOR => "B♭ minor"
  | .B_MAJOR => "B major"
  | .B_MINOR => "B minor"
  | .C_MAJOR => "C major"
  | .C_MINOR => "C minor"
  | .D_FLAT_MAJOR => "D♭ major"
  | .D_FLAT_MINOR => "D♭ minor"
  | .D_MAJOR => "D major"
  | .D_MINOR => "D minor"
  | .E_FLAT_MAJOR => "E♭ major"
  | .E_FLAT_MINOR => "E♭ minor"
  | .E_MAJOR => "E major"
  | .E_MINOR => "E minor"
  | .F_MAJOR => "F major"
  | .F_MINOR => "F minor"
  | .G_FLAT_MAJOR => "G♭ major"
  | .G_FLAT_MINOR => "G♭ minor"
  | .G_MAJOR => "G major"
  | .G_MINOR => "G minor"
  | .A_FLAT_MAJOR => "A♭ major"
  | .A_FLAT_MINOR => "A♭ minor"
  | _ => "…"

/-- The twelve pitch classes, in the order of the key enumeration. -/
inductive PitchClass where
  | A | B_FLAT | B | C | D_FLAT | D | E_FLAT | E | F | G_FLAT | G | A_FLAT
  deriving DecidableEq

/-- The two modes. -/
inductive Mode where
  | MAJOR | MINOR
  deriving DecidableEq

/-- The display name of a pitch class. -/
def PitchClass.name : PitchClass → String
  | .A => "A" | .B_FLAT => "B♭" | .B => "B" | .C => "C" | .D_FLAT => "D♭" | .D => "D"
  | .E_FLAT => "E♭" | .E => "E" | .F => "F" | .G_FLAT => "G♭" | .G => "G" | .A_FLAT => "A♭"

/-- The display name of a mode. -/
def Mode.name : Mode → String
  | .MAJOR => "major" | .MINOR => "minor"

/-- The key with a given pitch class and mode, read off the enumerator names. -/
def key_t.ofPitchMode : PitchClass → Mode → key_t
  | .A, .MAJOR => .A_MAJOR | .A, .MINOR => .A_MINOR
  | .B_FLAT, .MAJOR => .B_FLAT_MAJOR | .B_FLAT, .MINOR => .B_FLAT_MINOR
  | .B, .MAJOR => .B_MAJOR | .B, .MINOR => .B_MINOR
  | .C, .MAJOR => .C_MAJOR | .C, .MINOR => .C_MINOR
  | .D_FLAT, .MAJOR => .D_FLAT_MAJOR | .D_FLAT, .MINOR => .D_FLAT_MINOR
  | .D, .MAJOR => .D_MAJOR | .D, .MINOR => .D_MINOR
  | .E_FLAT, .MAJOR => .E_FLAT_MAJOR | .E_FLAT, .MINOR => .E_FLAT_MINOR
  | .E, .MAJOR => .E_MAJOR | .E, .MINOR => .E_MINOR
  | .F, .MAJOR => .F_MAJOR | .F, .MINOR => .F_MINOR
  | .G_FLAT, .MAJOR => .G_FLAT_MAJOR | .G_FLAT, .MINOR => .G_FLAT_MINOR
  | .G, .MAJOR => .G_MAJOR | .G, .MINOR => .G_MINOR
  | .A_FLAT, .MAJOR => .A_FLAT_MAJOR | .A_FLAT, .MINOR => .A_FLAT_MINOR

/-- The 24 keys proper, in enumeration order. -/
def realKeys : List key_t :=
  [.A_MAJOR, .A_MINOR, .B_FLAT_MAJOR, .B_FLAT_MINOR, .B_MAJOR, .B_MINOR,
   .C_MAJOR, .C_MINOR, .D_FLAT_MAJOR, .D_FLAT_MINOR, .D_MAJOR, .D_MINOR,
   .E_FLAT_MAJOR, .E_FLAT_MINOR, .E_MAJOR, .E_MINOR, .F_MAJOR, .F_MINOR,
   .G_FLAT_MAJOR, .G_FLAT_MINOR, .G_MAJOR, .G_MINOR, .A_FLAT_MAJOR, .A_FLAT_MINOR]

/-! ## Auxiliary definitions for the statements -/

/-- The number of whole frames in `n` buffered samples: none below one frame, otherwise one
plus the number of further whole hops. -/
def wholeFrameCount (frame hop n : ℕ) : ℕ :=
  if n < frame then 0 else 1 + (n - frame) / hop

/-- A caller feeding chunks, in order, to `progressiveChromagram`. -/
def feedChunks (kf : KeyFinder) : List AudioData → Workspace → Except Error Workspace
  | [], workspace => pure workspace
  | chunk :: chunks, workspace => do
    let workspace ← progressiveChromagram kf chunk workspace
    feedChunks kf chunks workspace

/-- The samples a `preprocess` call works on: the carried remainder followed by the mono
reduction of the chunk. -/
def stagedSamples (ws : Workspace) (chunk : AudioData) : List ℚ :=
  ws.remainderBuffer.samples ++ chunk.reduceToMono.samples

/-- The largest multiple of `f` that does not exceed `n`. -/
def wholeMultiple (f n : ℕ) : ℕ := n - n % f

/-- Filtering and decimation of one working buffer at frame rate `fr`, as in the last two
steps of `preprocess`: the decimated samples and the delay buffer the filter leaves. -/
def filterDecimate (kf : KeyFinder) (fr : ℕ) (xs buffer : List ℚ) : List ℚ × List ℚ :=
  (AudioData.decimate (downsampleFactor kf fr)
    ((kf.lpfFactory 160 fr (lpfCutoff kf) 2048).filter xs buffer (downsampleFactor kf fr)).1,
   ((kf.lpfFactory 160 fr (lpfCutoff kf) 2048).filter xs buffer (downsampleFactor kf fr)).2)

/-- The filtered and decimated samples a non-final `preprocess` call hands back for a chunk. -/
def decimatedSamples (kf : KeyFinder) (ws : Workspace) (chunk : AudioData) : List ℚ :=
  (filterDecimate kf chunk.frameRate
    ((stagedSamples ws chunk).take
      (wholeMultiple (downsampleFactor kf chunk.frameRate) (stagedSamples ws chunk).length))
    ws.lpfBuffer).1

/-- The delay buffer a non-final `preprocess` call leaves in the workspace for a chunk. -/
def nextFilterBuffer (kf : KeyFinder) (ws : Workspace) (chunk : AudioData) : List ℚ :=
  (filterDecimate kf chunk.frameRate
    ((stagedSamples ws chunk).take
      (wholeMultiple (downsampleFactor kf chunk.frameRate) (stagedSamples ws chunk).length))
    ws.lpfBuffer).2

/-- A buffer of the workspace is either still without format and empty, or mono. -/
def AudioData.FreshOrMono (a : AudioData) : Prop :=
  (a.channels = 0 ∧ a.samples = []) ∨ a.channels = 1

instance (a : AudioData) : Decidable a.FreshOrMono := by
  unfold AudioData.FreshOrMono; infer_instance

/-- The remainder carried after feeding mono chunks `ms`, starting from remainder `r`, with
decimation factor `f`. -/
def carriedRemainder (f : ℕ) : List ℚ → List (List ℚ) → List ℚ
  | r, [] => r
  | r, m :: ms =>
    carriedRemainder f ((r ++ m).drop (wholeMultiple f (r ++ m).length)) ms

/-- The decimated samples produced, call after call, when feeding mono chunks `ms` starting
from delay buffer `s` and remainder `r`; `g` is the filter-and-decimate stage. -/
def decimatedStream (g : List ℚ → List ℚ → List ℚ × List ℚ) (f : ℕ) :
    List ℚ → List ℚ → List (List ℚ) → List ℚ
  | _, _, [] => []
  | s, r, m :: ms =>
    (g ((r ++ m).take (wholeMultiple f (r ++ m).length)) s).1 ++
      decimatedStream g f (g ((r ++ m).take (wholeMultiple f (r ++ m).length)) s).2
        ((r ++ m).drop (wholeMultiple f (r ++ m).length)) ms

/-- Batch processing: the whole signal as one chunk on a fresh workspace, then the final
call. -/
def batchRun (kf : KeyFinder) (signal : AudioData) : Except Error Workspace :=
  progressiveChromagram kf signal Workspace.fresh >>= finalChromagram kf

/-- Progressive processing: the chunks in order on a fresh workspace, then the final call. -/
def chunkedRun (kf : KeyFinder) (chunks : List AudioData) : Except Error Workspace :=
  feedChunks kf chunks Workspace.fresh >>= finalChromagram kf

/-- The low-pass filter used at frame rate `fr` is a streaming filter: with the delay buffer
carried from call to call, filtering and decimating a buffer that is cut at a multiple of the
decimation factor, piece after piece, gives what filtering and decimating it whole gives. -/
def StreamingFilter (kf : KeyFinder) (fr : ℕ) : Prop :=
  ∀ buffer xs ys : List ℚ, downsampleFactor kf fr ∣ xs.length →
    (filterDecimate kf fr (xs ++ ys) buffer).1
      = (filterDecimate kf fr xs buffer).1
        ++ (filterDecimate kf fr ys (filterDecimate kf fr xs buffer).2).1

/-- A filter that leaves the samples and the delay buffer alone. -/
def unitFilter : LowPassFilter := ⟨fun xs buffer _ => (xs, buffer), fun _ _ _ => rfl⟩

/-- The output of an FIR filter with coefficients `coeffs` on the samples `xs`, the samples
`history` having gone before: `y[i] = Σ_j coeffs[j] * x[i - j]`. -/
def firOutput (coeffs history xs : List ℚ) : List ℚ :=
  (List.range xs.length).map fun i =>
    ((List.range (history.length + i + 1)).map fun j =>
      coeffs.getD j 0 * (history ++ xs).getD (history.length + i - j) 0).sum

/-- Modelled from the spec: an FIR low-pass filter that is "applied to the chunk" (section 4.3,
step 6), the workspace of the spec holding no filter state: each call filters its chunk on
its own, the delay line empty at the start. -/
def firFilter (coeffs : List ℚ) : LowPassFilter :=
  ⟨fun xs _ _ => (firOutput coeffs [] xs, []), fun xs _ _ => by simp [firOutput]⟩

/-- The same FIR filter with its delay line carried in the workspace from call to call (the
buffer keeps the samples seen so far), as the `Workspace&` argument of `lpf->filter`
allows. -/
def streamingFirFilter (coeffs : List ℚ) : LowPassFilter :=
  ⟨fun xs buffer _ => (firOutput coeffs buffer xs, buffer ++ xs),
    fun xs _ _ => by simp [firOutput]⟩

/-- The coefficients `1, 1, 0, …, 0` of an FIR filter of the given order. -/
def twoTapCoefficients (order : ℕ) : List ℚ := 1 :: 1 :: List.replicate (order - 1) 0

/-- An analyser whose twelve bins all hold the sum of the frame. -/
def sumAnalyser (_frameRate : ℕ) (frame : List ℚ) : List ℚ := List.replicate 12 frame.sum

/-- A key finder with a frame of 16384 samples, a hop of 4096 samples and a last frequency of
1975.53 Hz, for which audio at 44100 Hz is decimated by 10. -/
def demoFinder : KeyFinder := ⟨16384, 4096, 1975.53, fun _ _ _ _ => unitFilter, sumAnalyser⟩

/-- A key finder with a frame of 4 samples and a hop of 1 sample. -/
def smallFinder : KeyFinder := ⟨4, 1, 1975.53, fun _ _ _ _ => unitFilter, sumAnalyser⟩

/-- A key finder with a frame of 2 samples, a hop of 1 sample and, for every requested order,
the FIR filter with coefficients `1, 1, 0, …, 0` applied to each chunk on its own; its last
frequency of 10 Hz gives decimation factor 1 at a frame rate of 22 Hz. -/
def twoTapFinder : KeyFinder :=
  ⟨2, 1, 10, fun order _ _ _ => firFilter (twoTapCoefficients order), sumAnalyser⟩

/-- The key finder `twoTapFinder` with the delay line of its filter carried from call to
call. -/
def streamingTwoTapFinder : KeyFinder :=
  ⟨2, 1, 10, fun order _ _ _ => streamingFirFilter (twoTapCoefficients order), sumAnalyser⟩

/-- A workspace in mid-session for `smallFinder`: three decimated samples buffered, five
samples carried as remainder, two hops analysed so far. -/
def midWorkspace : Workspace :=
  ⟨⟨[20, 30, 40], 1, 4410⟩, ⟨[50, 51, 52, 53, 54], 1, 44100⟩,
    some [List.replicate 12 60, List.replicate 12 100], some 4, []⟩

/-- The statement "the padded length `L` is `FFTFRAMESIZE + (hopCount - 1) * HOPSIZE` for the
smallest hop count for which that value is at least the length `n` before padding". -/
def PaddedToSmallestCover (kf : KeyFinder) (n L : ℕ) : Prop :=
  ∃ h, 1 ≤ h ∧ L = kf.FFTFRAMESIZE + (h - 1) * kf.HOPSIZE ∧ n ≤ L ∧
    ∀ h1, 1 ≤ h1 → n ≤ kf.FFTFRAMESIZE + (h1 - 1) * kf.HOPSIZE → h ≤ h1

/-- A mono buffer of `n` zero samples at 4410 Hz. -/
def silentBuffer (n : ℕ) : AudioData := ⟨List.replicate n 0, 1, 4410⟩

/-! ## Theorems -/

/-! ### Arithmetic of the zero padding -/

theorem ceil_mul_bounds (n h : ℕ) (hh : 0 < h) :
    n ≤ ⌈(n : ℚ) / (h : ℚ)⌉₊ * h ∧ ⌈(n : ℚ) / (h : ℚ)⌉₊ * h < n + h := by
  have hq : (0 : ℚ) < h := by exact_mod_cast hh
  constructor
  · have h1 := Nat.le_ceil ((n : ℚ) / (h : ℚ))
    rw [div_le_iff₀ hq] at h1
    exact_mod_cast h1
  · have h1 := Nat.ceil_lt_add_one (show (0 : ℚ) ≤ (n : ℚ) / (h : ℚ) by positivity)
    have h2 : ((⌈(n : ℚ) / (h : ℚ)⌉₊ : ℚ)) * h < (n : ℚ) + h := by
      have := mul_lt_mul_of_pos_right h1 hq
      rwa [add_mul, div_mul_cancel₀ _ (ne_of_gt hq), one_mul] at this
    exact_mod_cast h2

theorem ceil_le_self (n h : ℕ) (hh : 0 < h) : ⌈(n : ℚ) / (h : ℚ)⌉₊ ≤ n := by
  obtain ⟨_, h2⟩ := ceil_mul_bounds n h hh
  by_contra hc
  push_neg at hc
  have h3 : (n + 1) * h ≤ ⌈(n : ℚ) / (h : ℚ)⌉₊ * h := Nat.mul_le_mul_right h hc
  have h4 : n + h ≤ (n + 1) * h := by nlinarith
  omega

theorem pad_core (F H n p : ℕ) (hHF : H ≤ F) (hF : F < 4294967296)
    (hp1 : n ≤ p * H) (hp2 : p * H < n + H) (hp : p < 4294967296) :
    ((F + ((p + 4294967296 - 1) % 4294967296 * H) % 4294967296) % 4294967296
      + 4294967296 - n % 4294967296) % 4294967296 + n + H = F + p * H := by
  have hd : F + p * H - H - n < 4294967296 := by omega
  have key : ((F + ((p + 4294967296 - 1) % 4294967296 * H) % 4294967296) % 4294967296
      + 4294967296 - n % 4294967296) % 4294967296 = F + p * H - H - n := by
    rw [← Nat.mod_eq_of_lt hd]
    apply (ZMod.natCast_eq_natCast_iff' _ _ 4294967296).1
    have e1 : n % 4294967296 ≤ 4294967296 := (Nat.mod_lt _ (by norm_num)).le
    rw [Nat.cast_sub (by omega), Nat.cast_sub (by omega), Nat.cast_sub (by omega)]
    simp only [ZMod.natCast_mod, Nat.cast_mul, Nat.cast_add, Nat.cast_ofNat]
    have h2 : ((4294967296 : ℕ) : ZMod 4294967296) = 0 := by decide
    rw [Nat.cast_sub (by omega)]
    push_cast at h2 ⊢
    rw [h2]
    ring
  rw [key]; omega

theorem paddedHopCount_eq (kf : KeyFinder) (n : ℕ) (hH : 0 < kf.HOPSIZE)
    (hn : n < 4294967296) : paddedHopCount kf n = ⌈(n : ℚ) / (kf.HOPSIZE : ℚ)⌉₊ := by
  unfold paddedHopCount
  exact Nat.mod_eq_of_lt (lt_of_le_of_lt (ceil_le_self n _ hH) hn)

/-- The pad amount, although computed with wrapping 32-bit operations, is the exact
difference between the padded length and the current length. -/
theorem padAmount_add (kf : KeyFinder) (n : ℕ) (hH : 0 < kf.HOPSIZE)
    (hHF : kf.HOPSIZE ≤ kf.FFTFRAMESIZE) (hF : kf.FFTFRAMESIZE < 4294967296)
    (hn : n < 4294967296) :
    padAmount kf n + n + kf.HOPSIZE
      = kf.FFTFRAMESIZE + ⌈(n : ℚ) / (kf.HOPSIZE : ℚ)⌉₊ * kf.HOPSIZE := by
  obtain ⟨h1, h2⟩ := ceil_mul_bounds n kf.HOPSIZE hH
  have hp := lt_of_le_of_lt (ceil_le_self n _ hH) hn
  unfold padAmount finalSampleLength
  rw [paddedHopCount_eq kf n hH hn]
  exact pad_core _ _ _ _ hHF hF h1 h2 hp

theorem zeroPadding_length (kf : KeyFinder) (ws : Workspace) :
    (zeroPadding kf ws).preprocessedBuffer.getSampleCount
      = ws.preprocessedBuffer.getSampleCount + padAmount kf ws.preprocessedBuffer.getSampleCount := by
  simp [zeroPadding, AudioData.addToSampleCount, AudioData.getSampleCount]

/-! ### The analyser over whole frames -/

theorem wholeFrames_length (analyse : List ℚ → List ℚ) (frame hop : ℕ) (h0 : 0 < hop)
    (hle : hop ≤ frame) : ∀ (fuel : ℕ) (buf : List ℚ), buf.length ≤ fuel →
    (wholeFrames analyse frame hop fuel buf).length = wholeFrameCount frame hop buf.length := by
  intro fuel
  induction fuel with
  | zero =>
    intro buf hb
    have : buf.length < frame := by omega
    simp [wholeFrames, wholeFrameCount, this]
  | succ fuel ih =>
    intro buf hb
    unfold wholeFrames
    by_cases hf : frame ≤ buf.length
    · have hd : (buf.drop hop).length ≤ fuel := by rw [List.length_drop]; omega
      rw [if_pos hf, List.length_cons, ih _ hd, List.length_drop]
      have hR : wholeFrameCount frame hop buf.length = 1 + (buf.length - frame) / hop := by
        unfold wholeFrameCount; rw [if_neg (by omega)]
      rw [hR]
      unfold wholeFrameCount
      by_cases h2 : buf.length - hop < frame
      · rw [if_pos h2, Nat.div_eq_of_lt (by omega)]
      · rw [if_neg h2]
        have e : buf.length - frame = (buf.length - hop - frame) + hop := by omega
        rw [e, Nat.add_div_right _ h0]
        omega
    · rw [if_neg hf]
      unfold wholeFrameCount
      rw [if_pos (by omega)]
      rfl

theorem wholeFrameCount_mul_le (frame hop n : ℕ) (hle : hop ≤ frame) :
    hop * wholeFrameCount frame hop n ≤ n := by
  unfold wholeFrameCount
  split
  · simp
  · have := Nat.mul_div_le (n - frame) hop
    rw [Nat.mul_add, Nat.mul_one]
    omega

theorem chromagramOfWholeFrames_length (kf : KeyFinder) (audio : AudioData)
    (hH : 0 < kf.HOPSIZE) (hHF : kf.HOPSIZE ≤ kf.FFTFRAMESIZE) :
    (chromagramOfWholeFrames kf audio).length
      = wholeFrameCount kf.FFTFRAMESIZE kf.HOPSIZE audio.getSampleCount :=
  wholeFrames_length _ _ _ hH hHF _ _ le_rfl

/-- With mono (or empty) buffered audio, `chromagramOfBufferedAudio` returns: the consumed hops
are dropped from the front of the buffer and the new chroma vectors are appended. -/
theorem chromagramOfBufferedAudio_ok (kf : KeyFinder) (ws : Workspace)
    (hH : 0 < kf.HOPSIZE) (hHF : kf.HOPSIZE ≤ kf.FFTFRAMESIZE)
    (hpre : ws.preprocessedBuffer.channels = 1 ∨
      ws.preprocessedBuffer.getSampleCount < kf.FFTFRAMESIZE) :
    ∃ ws1, chromagramOfBufferedAudio kf ws = .ok ws1 ∧
      ws1.preprocessedBuffer.samples = ws.preprocessedBuffer.samples.drop
        (kf.HOPSIZE * (chromagramOfWholeFrames kf ws.preprocessedBuffer).length) ∧
      ws1.preprocessedBuffer.channels = ws.preprocessedBuffer.channels ∧
      ws1.preprocessedBuffer.frameRate = ws.preprocessedBuffer.frameRate ∧
      ws1.remainderBuffer = ws.remainderBuffer ∧
      ws1.chromagram = some (ws.chromagram.getD [] ++
        chromagramOfWholeFrames kf ws.preprocessedBuffer) ∧
      ws1.lpfBuffer = ws.lpfBuffer := by
  have hlen := chromagramOfWholeFrames_length kf ws.preprocessedBuffer hH hHF
  have hmul := wholeFrameCount_mul_le kf.FFTFRAMESIZE kf.HOPSIZE
    ws.preprocessedBuffer.getSampleCount hHF
  rw [← hlen] at hmul
  have hok : ¬ ws.preprocessedBuffer.getFrameCount
      < kf.HOPSIZE * (chromagramOfWholeFrames kf ws.preprocessedBuffer).length := by
    rcases hpre with h1 | h1
    · simp only [AudioData.getFrameCount, h1, Nat.div_one]
      simpa [AudioData.getSampleCount] using hmul
    · have : (chromagramOfWholeFrames kf ws.preprocessedBuffer).length = 0 := by
        rw [hlen]; unfold wholeFrameCount; rw [if_pos h1]
      simp [this]
  unfold chromagramOfBufferedAudio
  simp only [AudioData.discardFramesFromFront, hok, if_false, bind, Except.bind, pure,
    Except.pure]
  refine ⟨_, rfl, ?_, rfl, rfl, rfl, ?_, rfl⟩
  · rcases hpre with h1 | h1
    · simp [h1]
    · have : (chromagramOfWholeFrames kf ws.preprocessedBuffer).length = 0 := by
        rw [hlen]; unfold wholeFrameCount; rw [if_pos h1]
      simp [this]
  · cases ws.chromagram <;> simp


/-- C8: `stringForKey` is a fixed table. Each of the 24 keys (every pitch class in either mode)
is displayed as the name of its pitch class, a space and the name of its mode; there are
exactly 24 such keys and their 24 names are pairwise distinct; every other value is the
silence sentinel, which is displayed as the undetermined marker; no key proper is displayed as
that marker. -/
theorem stringForKey_table :
    (∀ p m, stringForKey (key_t.ofPitchMode p m) = p.name ++ " " ++ m.name) ∧
    (∀ k, k ∈ realKeys ↔ ∃ p m, k = key_t.ofPitchMode p m) ∧
    realKeys.length = 24 ∧
    (realKeys.map stringForKey).Nodup ∧
    (∀ k, k ∈ realKeys ∨ (k = key_t.SILENCE ∧ stringForKey k = "…")) ∧
    "…" ∉ realKeys.map stringForKey := by
  refine ⟨?_, ?_, rfl, by decide, ?_, by decide⟩
  · intro p m; cases p <;> cases m <;> decide
  · intro k
    constructor
    · intro h
      cases k <;> first
        | exact absurd h (by decide)
        | exact ⟨.A, .MAJOR, rfl⟩ | exact ⟨.A, .MINOR, rfl⟩
        | exact ⟨.B_FLAT, .MAJOR, rfl⟩ | exact ⟨.B_FLAT, .MINOR, rfl⟩
        | exact ⟨.B, .MAJOR, rfl⟩ | exact ⟨.B, .MINOR, rfl⟩
        | exact ⟨.C, .MAJOR, rfl⟩ | exact ⟨.C, .MINOR, rfl⟩
        | exact ⟨.D_FLAT, .MAJOR, rfl⟩ | exact ⟨.D_FLAT, .MINOR, rfl⟩
        | exact ⟨.D, .MAJOR, rfl⟩ | exact ⟨.D, .MINOR, rfl⟩
        | exact ⟨.E_FLAT, .MAJOR, rfl⟩ | exact ⟨.E_FLAT, .MINOR, rfl⟩
        | exact ⟨.E, .MAJOR, rfl⟩ | exact ⟨.E, .MINOR, rfl⟩
        | exact ⟨.F, .MAJOR, rfl⟩ | exact ⟨.F, .MINOR, rfl⟩
        | exact ⟨.G_FLAT, .MAJOR, rfl⟩ | exact ⟨.G_FLAT, .MINOR, rfl⟩
        | exact ⟨.G, .MAJOR, rfl⟩ | exact ⟨.G, .MINOR, rfl⟩
        | exact ⟨.A_FLAT, .MAJOR, rfl⟩ | exact ⟨.A_FLAT, .MINOR, rfl⟩
    · rintro ⟨p, m, rfl⟩
      cases p <;> cases m <;> decide
  · intro k; cases k <;> decide

/-! ### One call of `preprocess` -/

theorem reduceToMono_channels (a : AudioData) (hc : 1 ≤ a.channels) :
    a.reduceToMono.channels = 1 := by
  unfold AudioData.reduceToMono
  split
  · omega
  · rfl

theorem reduceToMono_frameRate (a : AudioData) : a.reduceToMono.frameRate = a.frameRate := by
  unfold AudioData.reduceToMono
  split <;> rfl

theorem convertedFactor_isNone_of_pos (kf : KeyFinder) (fr : ℕ)
    (hf : 0 < downsampleFactor kf fr) : (convertedFactor kf fr).isNone = false := by
  unfold downsampleFactor at hf
  cases h : convertedFactor kf fr with
  | none => rw [h] at hf; simp at hf
  | some v => rfl

/-- A non-final `preprocess` call on a chunk with at least one channel and positive decimation
factor returns. With `w` the old remainder followed by the mono chunk and `k` the largest
multiple of the factor not exceeding the length of `w`, the first `k` samples are filtered and
decimated, the others become the new remainder, the filter leaves its delay buffer, and
nothing else in the workspace changes. -/
theorem preprocess_staged (kf : KeyFinder) (chunk : AudioData) (ws : Workspace)
    (hc : 1 ≤ chunk.channels) (hf : 0 < downsampleFactor kf chunk.frameRate)
    (hrem : ws.remainderBuffer.FreshOrMono) :
    ∃ out ws1, preprocess kf chunk ws false = .ok (out, ws1) ∧
      out.samples = decimatedSamples kf ws chunk ∧
      out.channels = 1 ∧
      out.frameRate = chunk.frameRate / downsampleFactor kf chunk.frameRate ∧
      ws1.remainderBuffer.samples = (stagedSamples ws chunk).drop
        (wholeMultiple (downsampleFactor kf chunk.frameRate) (stagedSamples ws chunk).length) ∧
      ws1.remainderBuffer.FreshOrMono ∧
      ws1.preprocessedBuffer = ws.preprocessedBuffer ∧
      ws1.chromagram = ws.chromagram ∧
      ((ws.remainderBuffer.channels = 0 ∨ ws.remainderBuffer.frameRate = chunk.frameRate) →
        (ws1.remainderBuffer.channels = 0 ∨
          ws1.remainderBuffer.frameRate = chunk.frameRate)) ∧
      ws1.lpfBuffer = nextFilterBuffer kf ws chunk := by
  have hm1 := reduceToMono_channels chunk hc
  have hm2 := reduceToMono_frameRate chunk
  have hdef := convertedFactor_isNone_of_pos kf chunk.frameRate hf
  unfold preprocess decimatedSamples nextFilterBuffer filterDecimate stagedSamples wholeMultiple
    AudioData.FreshOrMono
  unfold AudioData.FreshOrMono at hrem
  generalize chunk.reduceToMono = mono at hm1 hm2 ⊢
  obtain ⟨ms, mc, mr⟩ := mono
  obtain ⟨pre, ⟨rs, rc, rr⟩, chroma, fft, lb⟩ := ws
  simp only at hm1 hm2 hrem
  subst hm1 hm2
  have hf0 : downsampleFactor kf chunk.frameRate ≠ 0 := by omega
  rcases hrem with ⟨h0, hs⟩ | h1
  · subst h0 hs
    by_cases he : ms.length % downsampleFactor kf chunk.frameRate = 0
    · simp [AudioData.getChannels, AudioData.getFrameRate,
        AudioData.getSampleCount, AudioData.downsample, bind, Except.bind, pure, Except.pure,
        hf0, he, hdef]
      refine ⟨_, _, ⟨rfl, rfl⟩, ?_⟩
      simp [← List.length_append]
    · have hle : ¬ ms.length < ms.length % downsampleFactor kf chunk.frameRate :=
        not_lt.2 (Nat.mod_le _ _)
      simp [AudioData.getChannels, AudioData.getFrameRate,
        AudioData.getSampleCount, AudioData.downsample, AudioData.sliceSamplesFromBack,
        AudioData.append, AudioData.adoptFormat, bind, Except.bind, pure, Except.pure,
        hf0, he, hle, hdef]
      refine ⟨_, _, ⟨rfl, rfl⟩, ?_⟩
      simp
  · subst h1
    by_cases he : (rs.length + ms.length) % downsampleFactor kf chunk.frameRate = 0
    · simp [AudioData.getChannels, AudioData.getFrameRate,
        AudioData.getSampleCount, AudioData.getFrameCount, AudioData.downsample,
        AudioData.prepend, AudioData.adoptFormat, AudioData.discardFramesFromFront,
        bind, Except.bind, pure, Except.pure, hf0, he, hdef]
      refine ⟨_, _, ⟨rfl, rfl⟩, ?_⟩
      simp [← List.length_append]
    · have hle : ¬ rs.length + ms.length
          < (rs.length + ms.length) % downsampleFactor kf chunk.frameRate :=
        not_lt.2 (Nat.mod_le _ _)
      simp [AudioData.getChannels, AudioData.getFrameRate,
        AudioData.getSampleCount, AudioData.getFrameCount, AudioData.downsample,
        AudioData.prepend, AudioData.adoptFormat, AudioData.discardFramesFromFront,
        AudioData.sliceSamplesFromBack, AudioData.append,
        bind, Except.bind, pure, Except.pure, hf0, he, hle, hdef]
      refine ⟨_, _, ⟨rfl, rfl⟩, ?_⟩
      simp

theorem freshOrMono_of_wellFormed (a : AudioData) (h1 : a.channels ≤ 1) (h2 : a.WellFormed) :
    a.FreshOrMono := by
  unfold AudioData.FreshOrMono
  unfold AudioData.WellFormed at h2
  rcases Nat.lt_or_ge a.channels 1 with h | h
  · left
    have h0 : a.channels = 0 := by omega
    rw [h0] at h2
    exact ⟨h0, List.length_eq_zero.1 (Nat.eq_zero_of_zero_dvd h2)⟩
  · right; omega

/-! ### One call of `progressiveChromagram` -/

/-- The buffered samples that `progressiveChromagram` analyses for a chunk. -/
theorem progressiveChromagram_ok (kf : KeyFinder) (chunk : AudioData) (ws : Workspace)
    (hc : 1 ≤ chunk.channels) (hf : 0 < downsampleFactor kf chunk.frameRate)
    (hH : 0 < kf.HOPSIZE) (hHF : kf.HOPSIZE ≤ kf.FFTFRAMESIZE)
    (hrem : ws.remainderBuffer.FreshOrMono) (hpre : ws.preprocessedBuffer.FreshOrMono) :
    ∃ ws2, progressiveChromagram kf chunk ws = .ok ws2 ∧
      ws2.remainderBuffer.samples = (stagedSamples ws chunk).drop
        (wholeMultiple (downsampleFactor kf chunk.frameRate) (stagedSamples ws chunk).length) ∧
      ws2.remainderBuffer.FreshOrMono ∧
      ws2.preprocessedBuffer.channels = 1 ∧
      ws2.preprocessedBuffer.frameRate =
        (if ws.preprocessedBuffer.channels = 0
          then chunk.frameRate / downsampleFactor kf chunk.frameRate
          else ws.preprocessedBuffer.frameRate) ∧
      ws2.preprocessedBuffer.samples =
        (ws.preprocessedBuffer.samples ++ decimatedSamples kf ws chunk).drop
          (kf.HOPSIZE * wholeFrameCount kf.FFTFRAMESIZE kf.HOPSIZE
            (ws.preprocessedBuffer.samples ++ decimatedSamples kf ws chunk).length) ∧
      ws2.chromagram = some (ws.chromagram.getD [] ++
        wholeFrames (kf.analyser ws2.preprocessedBuffer.frameRate) kf.FFTFRAMESIZE kf.HOPSIZE
          (ws.preprocessedBuffer.samples ++ decimatedSamples kf ws chunk).length
          (ws.preprocessedBuffer.samples ++ decimatedSamples kf ws chunk)) ∧
      ((ws.remainderBuffer.channels = 0 ∨ ws.remainderBuffer.frameRate = chunk.frameRate) →
        (ws2.remainderBuffer.channels = 0 ∨
          ws2.remainderBuffer.frameRate = chunk.frameRate)) ∧
      ws2.lpfBuffer = nextFilterBuffer kf ws chunk := by
  obtain ⟨out, ws1, hp, ho1, ho2, ho3, hr1, hr2, hpb, hcg, hrr, hlb⟩ :=
    preprocess_staged kf chunk ws hc hf hrem
  obtain ⟨os, oc, ofr⟩ := out
  simp only at ho1 ho2 ho3
  subst ho2
  -- the append step
  have happ : ∃ pb, ws1.preprocessedBuffer.append ⟨os, 1, ofr⟩ = .ok pb ∧
      pb.samples = ws.preprocessedBuffer.samples ++ os ∧ pb.channels = 1 ∧
      pb.frameRate = (if ws.preprocessedBuffer.channels = 0 then ofr
        else ws.preprocessedBuffer.frameRate) := by
    rw [hpb]
    rcases hpre with ⟨h0, hs⟩ | h1
    · simp [AudioData.append, AudioData.adoptFormat, h0, hs]
    · simp [AudioData.append, AudioData.adoptFormat, h1]
  obtain ⟨pb, hpb1, hpb2, hpb3, hpb4⟩ := happ
  obtain ⟨ws2, hc1, hc2, hc3, hc4, hc5, hc6, hc7⟩ := chromagramOfBufferedAudio_ok kf
    { ws1 with preprocessedBuffer := pb } hH hHF (Or.inl hpb3)
  simp only at hc2 hc3 hc4 hc5 hc6 hc7
  refine ⟨ws2, ?_, ?_, ?_, ?_, ?_, ?_, ?_, ?_, hc7.trans hlb⟩
  rotate_right
  · rw [hc5]; exact hrr
  · unfold progressiveChromagram
    simp only [hp, hpb1, bind, Except.bind]
    exact hc1
  · rw [hc5]; exact hr1
  · rw [hc5]; exact hr2
  · rw [hc3]; exact hpb3
  · rw [hc4, hpb4, ho3]
  · rw [hc2, chromagramOfWholeFrames_length kf pb hH hHF, AudioData.getSampleCount, hpb2, ho1]
  · rw [hc6, hcg, hc4]
    unfold chromagramOfWholeFrames
    rw [hpb2, ho1]

/-! ### The final call -/

/-- The flush block of `finalChromagram` preprocesses the remainder into a local buffer only:
it empties the remainder buffer and leaves the preprocessed buffer and the chromagram as they
were. -/
theorem flushRemainderBuffer_ok (kf : KeyFinder) (ws : Workspace)
    (h : ws.remainderBuffer.samples = [] ∨
      (ws.remainderBuffer.channels = 1 ∧ 0 < downsampleFactor kf ws.remainderBuffer.frameRate)) :
    ∃ ws1, flushRemainderBuffer kf ws = .ok ws1 ∧
      ws1.preprocessedBuffer = ws.preprocessedBuffer ∧
      ws1.chromagram = ws.chromagram ∧
      ws1.remainderBuffer.samples = [] := by
  obtain ⟨pre, ⟨rs, rc, rr⟩, chroma, fft, lb⟩ := ws
  simp only at h
  by_cases hs : rs = []
  · subst hs
    exact ⟨_, by simp [flushRemainderBuffer, AudioData.getSampleCount, pure, Except.pure],
      rfl, rfl, rfl⟩
  · rcases h with h | ⟨h1, h2⟩
    · exact absurd h hs
    · subst h1
      have hpos : 0 < rs.length := List.length_pos.2 hs
      have hf0 : downsampleFactor kf rr ≠ 0 := by omega
      have hdef := convertedFactor_isNone_of_pos kf rr h2
      simp [flushRemainderBuffer, preprocess, AudioData.getSampleCount, AudioData.empty,
        AudioData.reduceToMono, AudioData.getChannels, AudioData.getFrameRate,
        AudioData.getFrameCount, AudioData.prepend, AudioData.adoptFormat,
        AudioData.discardFramesFromFront, AudioData.downsample, bind, Except.bind, pure,
        Except.pure, hpos, hf0, hdef]

theorem wholeFrameCount_padded (F H p : ℕ) (hH : 0 < H) (hHF : H ≤ F) :
    wholeFrameCount F H (F + p * H - H) = p := by
  unfold wholeFrameCount
  rcases Nat.eq_zero_or_pos p with h0 | hp
  · subst h0
    rw [if_pos (by omega)]
  · obtain ⟨q, rfl⟩ : ∃ q, p = q + 1 := ⟨p - 1, by omega⟩
    have e : F + (q + 1) * H - H = F + q * H := by
      rw [Nat.add_mul, Nat.one_mul]; omega
    rw [e, if_neg (by omega), Nat.add_sub_cancel_left, Nat.mul_div_cancel _ hH]
    omega

/-- The whole of `finalChromagram` on a workspace whose preprocessed buffer is mono and whose
remainder can be flushed: it returns, appends `ceil(n / HOPSIZE)` hops and leaves one frame
less one hop of samples buffered. -/
theorem finalChromagram_ok (kf : KeyFinder) (ws : Workspace)
    (hH : 0 < kf.HOPSIZE) (hHF : kf.HOPSIZE ≤ kf.FFTFRAMESIZE)
    (hF : kf.FFTFRAMESIZE < 4294967296)
    (hn : ws.preprocessedBuffer.getSampleCount < 4294967296)
    (hpre : ws.preprocessedBuffer.channels = 1 ∨ ws.preprocessedBuffer.samples = [])
    (hrem : ws.remainderBuffer.samples = [] ∨
      (ws.remainderBuffer.channels = 1 ∧ 0 < downsampleFactor kf ws.remainderBuffer.frameRate)) :
    ∃ ws1 ws2, flushRemainderBuffer kf ws = .ok ws1 ∧
      ws1.preprocessedBuffer = ws.preprocessedBuffer ∧
      ws1.chromagram = ws.chromagram ∧
      chromagramOfBufferedAudio kf (zeroPadding kf ws1) = .ok ws2 ∧
      finalChromagram kf ws = .ok ws2 ∧
      ws2.chromagram = some (ws.chromagram.getD [] ++
        chromagramOfWholeFrames kf (zeroPadding kf ws1).preprocessedBuffer) ∧
      (chromagramOfWholeFrames kf (zeroPadding kf ws1).preprocessedBuffer).length
        = ⌈(ws.preprocessedBuffer.getSampleCount : ℚ) / (kf.HOPSIZE : ℚ)⌉₊ ∧
      ws2.preprocessedBuffer.getSampleCount + kf.HOPSIZE = kf.FFTFRAMESIZE ∧
      ws2.preprocessedBuffer.channels = ws.preprocessedBuffer.channels ∧
      ws2.remainderBuffer.samples = [] := by
  obtain ⟨ws1, hfl, hp1, hc1, hr1⟩ := flushRemainderBuffer_ok kf ws hrem
  have hpad := padAmount_add kf ws.preprocessedBuffer.getSampleCount hH hHF hF hn
  have hlen := zeroPadding_length kf ws1
  rw [hp1] at hlen
  have hch : (zeroPadding kf ws1).preprocessedBuffer.channels
      = ws.preprocessedBuffer.channels := by
    simp [zeroPadding, AudioData.addToSampleCount, hp1]
  have hpre2 : (zeroPadding kf ws1).preprocessedBuffer.channels = 1 ∨
      (zeroPadding kf ws1).preprocessedBuffer.getSampleCount < kf.FFTFRAMESIZE := by
    rcases hpre with h | h
    · left; rw [hch]; exact h
    · right
      have h0 : ws.preprocessedBuffer.getSampleCount = 0 := by
        simp [AudioData.getSampleCount, h]
      rw [hlen, h0]
      rw [h0] at hpad
      have hz : ⌈((0 : ℕ) : ℚ) / (kf.HOPSIZE : ℚ)⌉₊ = 0 := by simp
      rw [hz] at hpad
      omega
  obtain ⟨ws2, hc, hs, hcc, _, hrb, hcg, _⟩ :=
    chromagramOfBufferedAudio_ok kf (zeroPadding kf ws1) hH hHF hpre2
  have hcount : (chromagramOfWholeFrames kf (zeroPadding kf ws1).preprocessedBuffer).length
      = ⌈(ws.preprocessedBuffer.getSampleCount : ℚ) / (kf.HOPSIZE : ℚ)⌉₊ := by
    rw [chromagramOfWholeFrames_length kf _ hH hHF, hlen]
    have e : ws.preprocessedBuffer.getSampleCount
        + padAmount kf ws.preprocessedBuffer.getSampleCount
        = kf.FFTFRAMESIZE
          + ⌈(ws.preprocessedBuffer.getSampleCount : ℚ) / (kf.HOPSIZE : ℚ)⌉₊ * kf.HOPSIZE
          - kf.HOPSIZE := by omega
    rw [e]
    exact wholeFrameCount_padded _ _ _ hH hHF
  refine ⟨ws1, ws2, hfl, hp1, hc1, hc, ?_, ?_, hcount, ?_, ?_, ?_⟩
  · unfold finalChromagram
    simp only [hfl, bind, Except.bind]
    exact hc
  · rw [hcg]
    simp [zeroPadding, hc1]
  · rw [hcount] at hs
    have h2 : ws2.preprocessedBuffer.getSampleCount
        = (zeroPadding kf ws1).preprocessedBuffer.getSampleCount
          - kf.HOPSIZE * ⌈(ws.preprocessedBuffer.getSampleCount : ℚ) / (kf.HOPSIZE : ℚ)⌉₊ := by
      simp only [AudioData.getSampleCount, hs, List.length_drop]
    rw [h2, hlen, Nat.mul_comm]
    omega
  · rw [hcc]; exact hch
  · rw [hrb]
    simpa [zeroPadding] using hr1

/-! ### Zero padding and the final hops -/

/-- C9: the final hop is analysed. On a workspace with a mono preprocessed buffer (fewer than
2^32 samples) and a flushable remainder, with `n` the buffer length after the flush:
the flush returns, the buffer is padded to `FFTFRAMESIZE + (ceil(n / HOPSIZE) - 1) * HOPSIZE`
samples (as an integer, also for `n = 0`), the pad amount handed to `addToSampleCount` is
exactly the non-negative integer `FFTFRAMESIZE + (ceil(n / HOPSIZE) - 1) * HOPSIZE - n` although
it is computed with wrapping 32-bit operations, it is less than `FFTFRAMESIZE`, the 32-bit
value `finalSampleLength` is the padded length itself whenever that length fits in 32 bits,
and `finalChromagram` returns with exactly `ceil(n / HOPSIZE)` further hops appended to the
chromagram. -/
theorem finalChromagram_pads_and_analyses (kf : KeyFinder) (ws : Workspace)
    (hH : 0 < kf.HOPSIZE) (hHF : kf.HOPSIZE ≤ kf.FFTFRAMESIZE)
    (hF : kf.FFTFRAMESIZE < 4294967296)
    (hn : ws.preprocessedBuffer.getSampleCount < 4294967296)
    (hpre : ws.preprocessedBuffer.channels = 1)
    (hrem : ws.remainderBuffer.samples = [] ∨
      (ws.remainderBuffer.channels = 1 ∧ 0 < downsampleFactor kf ws.remainderBuffer.frameRate)) :
    ∃ ws1 ws2 newHops, flushRemainderBuffer kf ws = .ok ws1 ∧
      ((zeroPadding kf ws1).preprocessedBuffer.getSampleCount : ℤ)
        = (kf.FFTFRAMESIZE : ℤ)
          + ((⌈(ws1.preprocessedBuffer.getSampleCount : ℚ) / (kf.HOPSIZE : ℚ)⌉₊ : ℤ) - 1)
            * (kf.HOPSIZE : ℤ) ∧
      (padAmount kf ws1.preprocessedBuffer.getSampleCount : ℤ)
        = (kf.FFTFRAMESIZE : ℤ)
          + ((⌈(ws1.preprocessedBuffer.getSampleCount : ℚ) / (kf.HOPSIZE : ℚ)⌉₊ : ℤ) - 1)
            * (kf.HOPSIZE : ℤ)
          - (ws1.preprocessedBuffer.getSampleCount : ℤ) ∧
      (0 : ℤ) ≤ (kf.FFTFRAMESIZE : ℤ)
          + ((⌈(ws1.preprocessedBuffer.getSampleCount : ℚ) / (kf.HOPSIZE : ℚ)⌉₊ : ℤ) - 1)
            * (kf.HOPSIZE : ℤ)
          - (ws1.preprocessedBuffer.getSampleCount : ℤ) ∧
      padAmount kf ws1.preprocessedBuffer.getSampleCount < kf.FFTFRAMESIZE ∧
      (ws1.preprocessedBuffer.getSampleCount
          + padAmount kf ws1.preprocessedBuffer.getSampleCount < 4294967296 →
        finalSampleLength kf ws1.preprocessedBuffer.getSampleCount
          = ws1.preprocessedBuffer.getSampleCount
            + padAmount kf ws1.preprocessedBuffer.getSampleCount) ∧
      finalChromagram kf ws = .ok ws2 ∧
      ws2.chromagram = some (ws.chromagram.getD [] ++ newHops) ∧
      newHops.length = ⌈(ws1.preprocessedBuffer.getSampleCount : ℚ) / (kf.HOPSIZE : ℚ)⌉₊ := by
  obtain ⟨ws1, ws2, hfl, hp1, _, _, hfin, hcg, hcount, _, _, _⟩ :=
    finalChromagram_ok kf ws hH hHF hF hn (Or.inl hpre) hrem
  have hpad := padAmount_add kf ws.preprocessedBuffer.getSampleCount hH hHF hF hn
  have hlen := zeroPadding_length kf ws1
  rw [hp1] at hlen
  have hpadZ : (padAmount kf ws.preprocessedBuffer.getSampleCount : ℤ)
      = (kf.FFTFRAMESIZE : ℤ)
        + ((⌈(ws.preprocessedBuffer.getSampleCount : ℚ) / (kf.HOPSIZE : ℚ)⌉₊ : ℤ) - 1)
          * (kf.HOPSIZE : ℤ)
        - (ws.preprocessedBuffer.getSampleCount : ℤ) := by
    have := congrArg (fun x : ℕ => (x : ℤ)) hpad
    push_cast at this
    linarith
  obtain ⟨_, hb2⟩ := ceil_mul_bounds ws.preprocessedBuffer.getSampleCount kf.HOPSIZE hH
  refine ⟨ws1, ws2, _, hfl, ?_, ?_, ?_, ?_, ?_, hfin, hcg, ?_⟩
  · rw [hlen, hp1]
    push_cast
    linarith
  · rw [hp1]; exact hpadZ
  · rw [hp1, ← hpadZ]; exact Int.natCast_nonneg _
  · rw [hp1]; omega
  · rw [hp1]
    have hfsl : finalSampleLength kf ws.preprocessedBuffer.getSampleCount < 4294967296 :=
      Nat.mod_lt _ (by norm_num)
    intro hfit
    unfold padAmount at hfit ⊢
    omega
  · rw [hp1]; exact hcount

theorem finalChromagram_pads_and_analyses_witness :
    ∃ ws1 ws2 newHops, flushRemainderBuffer smallFinder midWorkspace = .ok ws1 ∧
      ((zeroPadding smallFinder ws1).preprocessedBuffer.getSampleCount : ℤ)
        = (smallFinder.FFTFRAMESIZE : ℤ)
          + ((⌈(ws1.preprocessedBuffer.getSampleCount : ℚ) / (smallFinder.HOPSIZE : ℚ)⌉₊ : ℤ) - 1)
            * (smallFinder.HOPSIZE : ℤ) ∧
      (padAmount smallFinder ws1.preprocessedBuffer.getSampleCount : ℤ)
        = (smallFinder.FFTFRAMESIZE : ℤ)
          + ((⌈(ws1.preprocessedBuffer.getSampleCount : ℚ) / (smallFinder.HOPSIZE : ℚ)⌉₊ : ℤ) - 1)
            * (smallFinder.HOPSIZE : ℤ)
          - (ws1.preprocessedBuffer.getSampleCount : ℤ) ∧
      (0 : ℤ) ≤ (smallFinder.FFTFRAMESIZE : ℤ)
          + ((⌈(ws1.preprocessedBuffer.getSampleCount : ℚ) / (smallFinder.HOPSIZE : ℚ)⌉₊ : ℤ) - 1)
            * (smallFinder.HOPSIZE : ℤ)
          - (ws1.preprocessedBuffer.getSampleCount : ℤ) ∧
      padAmount smallFinder ws1.preprocessedBuffer.getSampleCount < smallFinder.FFTFRAMESIZE ∧
      (ws1.preprocessedBuffer.getSampleCount
          + padAmount smallFinder ws1.preprocessedBuffer.getSampleCount < 4294967296 →
        finalSampleLength smallFinder ws1.preprocessedBuffer.getSampleCount
          = ws1.preprocessedBuffer.getSampleCount
            + padAmount smallFinder ws1.preprocessedBuffer.getSampleCount) ∧
      finalChromagram smallFinder midWorkspace = .ok ws2 ∧
      ws2.chromagram = some (midWorkspace.chromagram.getD [] ++ newHops) ∧
      newHops.length
        = ⌈(ws1.preprocessedBuffer.getSampleCount : ℚ) / (smallFinder.HOPSIZE : ℚ)⌉₊ :=
  finalChromagram_pads_and_analyses smallFinder midWorkspace (by decide) (by decide)
    (by decide) (by decide) (by decide) (Or.inr ⟨by decide, by decide!⟩)

theorem ceil_isLeast (n h : ℕ) (hh : 0 < h) :
    IsLeast {k : ℕ | n ≤ k * h} ⌈(n : ℚ) / (h : ℚ)⌉₊ := by
  constructor
  · exact (ceil_mul_bounds n h hh).1
  · intro k hk
    have hk1 : n ≤ k * h := hk
    apply Nat.ceil_le.2
    have hq : (0 : ℚ) < h := by exact_mod_cast hh
    rw [div_le_iff₀ hq]
    exact_mod_cast hk1

/-- C4 (as amended): the length to which `finalChromagram` pads the preprocessed buffer is
`FFTFRAMESIZE + (hopCount - 1) * HOPSIZE` where `hopCount` is the smallest count with
`hopCount * HOPSIZE` at least the length `n` before padding, that is `ceil(n / HOPSIZE)`; the
padded length is at least `n`. -/
theorem zeroPadding_least_hop_count (kf : KeyFinder) (ws : Workspace)
    (hH : 0 < kf.HOPSIZE) (hHF : kf.HOPSIZE ≤ kf.FFTFRAMESIZE)
    (hF : kf.FFTFRAMESIZE < 4294967296)
    (hn : ws.preprocessedBuffer.getSampleCount < 4294967296) :
    ∃ hopCount, IsLeast {k : ℕ | ws.preprocessedBuffer.getSampleCount ≤ k * kf.HOPSIZE} hopCount ∧
      ((zeroPadding kf ws).preprocessedBuffer.getSampleCount : ℤ)
        = (kf.FFTFRAMESIZE : ℤ) + ((hopCount : ℤ) - 1) * (kf.HOPSIZE : ℤ) ∧
      ws.preprocessedBuffer.getSampleCount
        ≤ (zeroPadding kf ws).preprocessedBuffer.getSampleCount := by
  refine ⟨_, ceil_isLeast _ _ hH, ?_, ?_⟩
  · have hpad := padAmount_add kf ws.preprocessedBuffer.getSampleCount hH hHF hF hn
    rw [zeroPadding_length]
    have := congrArg (fun x : ℕ => (x : ℤ)) hpad
    push_cast at this ⊢
    linarith
  · rw [zeroPadding_length]; omega

theorem zeroPadding_least_hop_count_witness :
    ∃ hopCount,
      IsLeast {k : ℕ | midWorkspace.preprocessedBuffer.getSampleCount ≤ k * smallFinder.HOPSIZE}
        hopCount ∧
      ((zeroPadding smallFinder midWorkspace).preprocessedBuffer.getSampleCount : ℤ)
        = (smallFinder.FFTFRAMESIZE : ℤ) + ((hopCount : ℤ) - 1) * (smallFinder.HOPSIZE : ℤ) ∧
      midWorkspace.preprocessedBuffer.getSampleCount
        ≤ (zeroPadding smallFinder midWorkspace).preprocessedBuffer.getSampleCount :=
  zeroPadding_least_hop_count smallFinder midWorkspace (by decide) (by decide) (by decide)
    (by decide)

/-- C4 (counterexample): with a frame of 16384 samples and a hop of 4096 samples, a buffer of
5000 samples is padded to 20480 samples, although hop count 1 already gives 16384, which is at
least 5000. -/
theorem zeroPadding_not_smallest_cover :
    (zeroPadding demoFinder ⟨silentBuffer 5000, AudioData.empty, none, none, []⟩).preprocessedBuffer.getSampleCount
      = 20480 ∧
    ¬ PaddedToSmallestCover demoFinder 5000
      (zeroPadding demoFinder
        ⟨silentBuffer 5000, AudioData.empty, none, none, []⟩).preprocessedBuffer.getSampleCount := by
  have hL : (zeroPadding demoFinder
      ⟨silentBuffer 5000, AudioData.empty, none, none, []⟩).preprocessedBuffer.getSampleCount
      = 20480 := by
    rw [zeroPadding_length]
    have h1 : (silentBuffer 5000).getSampleCount = 5000 := List.length_replicate 5000 (0 : ℚ)
    simp only [h1]
    have h2 : padAmount demoFinder 5000 = 15480 := by decide!
    rw [h2]
  refine ⟨hL, ?_⟩
  rw [hL]
  rintro ⟨h, h1, hL2, _, hmin⟩
  have h3 : h ≤ 1 := hmin 1 le_rfl (by decide)
  have h4 : h = 1 := le_antisymm h3 h1
  subst h4
  revert hL2
  decide

theorem chromagramOfBufferedAudio_remainder (kf : KeyFinder) (ws ws1 : Workspace)
    (h : chromagramOfBufferedAudio kf ws = .ok ws1) :
    ws1.remainderBuffer = ws.remainderBuffer := by
  unfold chromagramOfBufferedAudio at h
  simp only [AudioData.discardFramesFromFront, bind, Except.bind, pure, Except.pure] at h
  split at h
  · simp at h
  · rw [← Except.ok.inj h]

theorem progressiveChromagram_remainder (kf : KeyFinder) (chunk out : AudioData)
    (ws ws1 ws2 : Workspace) (hp : preprocess kf chunk ws false = .ok (out, ws1))
    (h : progressiveChromagram kf chunk ws = .ok ws2) :
    ws2.remainderBuffer = ws1.remainderBuffer := by
  unfold progressiveChromagram at h
  simp only [hp, bind, Except.bind] at h
  split at h
  · simp at h
  · exact (chromagramOfBufferedAudio_remainder kf _ ws2 h).trans rfl

/-- C3: remainder bound. For a chunk with at least one channel whose frame rate gives a
positive decimation factor `f`, and a workspace whose remainder buffer is well formed with at
most one channel, a non-final `preprocess` call returns and leaves
`(old remainder length + mono chunk length) mod f` samples, fewer than `f`, in the remainder
buffer; whenever the enclosing `progressiveChromagram` call returns, it returns that same
remainder buffer. -/
theorem remainder_bound (kf : KeyFinder) (chunk : AudioData) (ws : Workspace)
    (hc : 1 ≤ chunk.channels) (hf : 0 < downsampleFactor kf chunk.frameRate)
    (hr1 : ws.remainderBuffer.channels ≤ 1) (hr2 : ws.remainderBuffer.WellFormed) :
    ∃ out ws1, preprocess kf chunk ws false = .ok (out, ws1) ∧
      ws1.remainderBuffer.getSampleCount
        = (ws.remainderBuffer.getSampleCount + chunk.reduceToMono.getSampleCount)
          % downsampleFactor kf chunk.frameRate ∧
      ws1.remainderBuffer.getSampleCount < downsampleFactor kf chunk.frameRate ∧
      ∀ ws2, progressiveChromagram kf chunk ws = .ok ws2 →
        ws2.remainderBuffer = ws1.remainderBuffer := by
  have hrem := freshOrMono_of_wellFormed _ hr1 hr2
  obtain ⟨out, ws1, hp, _, _, _, hr, _, _, _, _, _⟩ := preprocess_staged kf chunk ws hc hf hrem
  have hlen : ws1.remainderBuffer.getSampleCount
      = (ws.remainderBuffer.getSampleCount + chunk.reduceToMono.getSampleCount)
        % downsampleFactor kf chunk.frameRate := by
    simp only [AudioData.getSampleCount, hr, List.length_drop, wholeMultiple, stagedSamples,
      List.length_append]
    have := Nat.mod_le (ws.remainderBuffer.samples.length + chunk.reduceToMono.samples.length)
      (downsampleFactor kf chunk.frameRate)
    omega
  refine ⟨out, ws1, hp, hlen, ?_, ?_⟩
  · rw [hlen]; exact Nat.mod_lt _ hf
  · intro ws2 h2
    exact progressiveChromagram_remainder kf chunk out ws ws1 ws2 hp h2

theorem remainder_bound_witness :
    ∃ out ws1,
      preprocess smallFinder ⟨[1, 2, 3, 4, 5, 6, 7], 1, 44100⟩ midWorkspace false
        = .ok (out, ws1) ∧
      ws1.remainderBuffer.getSampleCount
        = (midWorkspace.remainderBuffer.getSampleCount
            + (AudioData.reduceToMono ⟨[1, 2, 3, 4, 5, 6, 7], 1, 44100⟩).getSampleCount)
          % downsampleFactor smallFinder 44100 ∧
      ws1.remainderBuffer.getSampleCount < downsampleFactor smallFinder 44100 ∧
      ∀ ws2, progressiveChromagram smallFinder ⟨[1, 2, 3, 4, 5, 6, 7], 1, 44100⟩ midWorkspace
          = .ok ws2 →
        ws2.remainderBuffer = ws1.remainderBuffer :=
  remainder_bound smallFinder ⟨[1, 2, 3, 4, 5, 6, 7], 1, 44100⟩ midWorkspace (by decide)
    (by decide!) (by decide) (by decide)

/-- C6: InsufficientSamples is unreachable from valid input. For a well-formed workspace and a
chunk with at least one channel and positive decimation factor (hop size positive and at most
the frame size): `progressiveChromagram` returns; slicing `sampleCount mod factor` samples
from the back of any buffer succeeds, the count never exceeding the sample count; discarding
a buffer's own frame count from its front succeeds and empties it; and for any mono buffer of
`n` samples the analyser produces `0` hops if `n < FFTFRAMESIZE` and
`1 + (n - FFTFRAMESIZE) div HOPSIZE` hops otherwise, `HOPSIZE * hops` is at most `n`, and
discarding that many frames succeeds. -/
theorem insufficientSamples_unreachable (kf : KeyFinder) (chunk : AudioData) (ws : Workspace)
    (hc : 1 ≤ chunk.channels) (hf : 0 < downsampleFactor kf chunk.frameRate)
    (hH : 0 < kf.HOPSIZE) (hHF : kf.HOPSIZE ≤ kf.FFTFRAMESIZE) (hw : ws.WellFormed) :
    (∃ ws2, progressiveChromagram kf chunk ws = .ok ws2) ∧
    (∀ a : AudioData,
      a.getSampleCount % downsampleFactor kf chunk.frameRate ≤ a.getSampleCount ∧
      ∃ r, a.sliceSamplesFromBack (a.getSampleCount % downsampleFactor kf chunk.frameRate)
        = .ok r) ∧
    (∀ a : AudioData, a.discardFramesFromFront a.getFrameCount
      = .ok { a with samples := a.samples.drop (a.getFrameCount * a.channels) }) ∧
    (ws.remainderBuffer.samples.drop
      (ws.remainderBuffer.getFrameCount * ws.remainderBuffer.channels) = []) ∧
    (∀ buf : AudioData, buf.channels = 1 →
      (chromagramOfWholeFrames kf buf).length
        = (if buf.getSampleCount < kf.FFTFRAMESIZE then 0
           else 1 + (buf.getSampleCount - kf.FFTFRAMESIZE) / kf.HOPSIZE) ∧
      kf.HOPSIZE * (chromagramOfWholeFrames kf buf).length ≤ buf.getSampleCount ∧
      ∃ pb, buf.discardFramesFromFront (kf.HOPSIZE * (chromagramOfWholeFrames kf buf).length)
        = .ok pb) := by
  obtain ⟨hw1, hw2, hw3, hw4⟩ := hw
  have hrem := freshOrMono_of_wellFormed _ hw1 hw2
  have hpre := freshOrMono_of_wellFormed _ hw3 hw4
  obtain ⟨ws2, hp2, _⟩ := progressiveChromagram_ok kf chunk ws hc hf hH hHF hrem hpre
  refine ⟨⟨ws2, hp2⟩, ?_, ?_, ?_, ?_⟩
  · intro a
    have hle := Nat.mod_le a.getSampleCount (downsampleFactor kf chunk.frameRate)
    refine ⟨hle, ?_⟩
    have hnl : ¬ a.samples.length
        < a.getSampleCount % downsampleFactor kf chunk.frameRate := not_lt.2 hle
    unfold AudioData.sliceSamplesFromBack
    rw [if_neg hnl]
    exact ⟨_, rfl⟩
  · intro a
    unfold AudioData.discardFramesFromFront
    rw [if_neg (lt_irrefl _)]
  · rcases hrem with ⟨h0, hs⟩ | h1
    · simp [hs]
    · simp [AudioData.getFrameCount, h1]
  · intro buf hb
    have hlen := chromagramOfWholeFrames_length kf buf hH hHF
    have hmul := wholeFrameCount_mul_le kf.FFTFRAMESIZE kf.HOPSIZE buf.getSampleCount hHF
    rw [← hlen] at hmul
    refine ⟨hlen, hmul, ?_⟩
    unfold AudioData.discardFramesFromFront
    have : ¬ buf.getFrameCount < kf.HOPSIZE * (chromagramOfWholeFrames kf buf).length := by
      simp only [AudioData.getFrameCount, hb, Nat.div_one]
      exact not_lt.2 hmul
    rw [if_neg this]
    exact ⟨_, rfl⟩

theorem insufficientSamples_unreachable_witness :
    ∃ ws2, progressiveChromagram smallFinder ⟨[1, 2, 3, 4, 5, 6, 7], 1, 44100⟩ midWorkspace
      = .ok ws2 :=
  (insufficientSamples_unreachable smallFinder ⟨[1, 2, 3, 4, 5, 6, 7], 1, 44100⟩ midWorkspace
    (by decide) (by decide!) (by decide) (by decide) (by decide)).1

/-! ### Two defects of the code -/

/-- The only failures `preprocess` can report are those of the buffer operations and the
modulo by a zero factor; it has no configuration check. -/
theorem preprocess_ne_invalidConfiguration (kf : KeyFinder) (chunk : AudioData)
    (ws : Workspace) (fl : Bool) :
    preprocess kf chunk ws fl ≠ .error .invalidConfiguration := by
  unfold preprocess
  simp only [AudioData.prepend, AudioData.discardFramesFromFront, AudioData.append,
    AudioData.sliceSamplesFromBack, AudioData.downsample, bind, Except.bind, pure, Except.pure,
    throw, throwThe, MonadExceptOf.throw]
  repeat' split
  all_goals first
    | (simp_all; done)
    | (rename_i heq; split at heq <;> simp at heq; subst heq; simp)

/-- C5 (the code at the failing input): at a frame rate of 1000 Hz and a last frequency of
1975.53 Hz the decimation factor is 0; `preprocess` then runs into the modulo by that factor
and `progressiveChromagram` fails the same way, neither with an InvalidConfiguration error;
indeed no input makes `preprocess` report InvalidConfiguration. -/
theorem preprocess_zero_factor :
    downsampleFactor demoFinder 1000 = 0 ∧
    preprocess demoFinder ⟨[1], 1, 1000⟩ Workspace.fresh false = .error .divisionByZero ∧
    progressiveChromagram demoFinder ⟨[1], 1, 1000⟩ Workspace.fresh
      = .error .divisionByZero ∧
    (∀ (kf : KeyFinder) (chunk : AudioData) (ws : Workspace) (fl : Bool),
      preprocess kf chunk ws fl ≠ .error .invalidConfiguration) := by
  refine ⟨by decide!, by decide!, by decide!, ?_⟩
  exact preprocess_ne_invalidConfiguration

/-- C2 (the code at the failing input): with five samples carried as remainder and three
samples buffered, the flush block of `finalChromagram` empties the remainder buffer and leaves
the preprocessed buffer at three samples, although the five remainder samples decimate (by 10)
to one sample; `finalChromagram` then pads those three samples and appends three hops, none
of which has seen a remainder sample. -/
theorem flush_drops_remainder :
    flushRemainderBuffer smallFinder midWorkspace
      = .ok { midWorkspace with remainderBuffer := ⟨[], 1, 44100⟩ } ∧
    (AudioData.decimate (downsampleFactor smallFinder 44100)
      midWorkspace.remainderBuffer.samples).length = 1 ∧
    (finalChromagram smallFinder midWorkspace).toOption.map (fun w => w.chromagram)
      = some (some [List.replicate 12 60, List.replicate 12 100,
          List.replicate 12 90, List.replicate 12 70, List.replicate 12 40]) := by
  refine ⟨by decide!, by decide!, by decide!⟩

/-! ### Analysing buffered audio in stages -/

theorem wholeFrames_fuel (analyse : List ℚ → List ℚ) (frame hop : ℕ) (h0 : 0 < hop)
    (hle : hop ≤ frame) : ∀ (fuel1 fuel2 : ℕ) (buf : List ℚ),
    buf.length ≤ fuel1 → buf.length ≤ fuel2 →
    wholeFrames analyse frame hop fuel1 buf = wholeFrames analyse frame hop fuel2 buf := by
  intro fuel1
  induction fuel1 with
  | zero =>
    intro fuel2 buf h1 _
    have hb : ¬ frame ≤ buf.length := by omega
    cases fuel2 with
    | zero => rfl
    | succ m => simp [wholeFrames, hb]
  | succ n ih =>
    intro fuel2 buf h1 h2
    cases fuel2 with
    | zero =>
      have hb : ¬ frame ≤ buf.length := by omega
      simp [wholeFrames, hb]
    | succ m =>
      unfold wholeFrames
      by_cases hf : frame ≤ buf.length
      · rw [if_pos hf, if_pos hf]
        have hd1 : (buf.drop hop).length ≤ n := by rw [List.length_drop]; omega
        have hd2 : (buf.drop hop).length ≤ m := by rw [List.length_drop]; omega
        rw [ih m _ hd1 hd2]
      · rw [if_neg hf, if_neg hf]

/-- Analysing `B ++ Z` in one go yields the frames of `B` followed by the frames of what `B`
leaves buffered with `Z` appended. -/
theorem wholeFrames_append (analyse : List ℚ → List ℚ) (frame hop : ℕ) (h0 : 0 < hop)
    (hle : hop ≤ frame) (Z : List ℚ) : ∀ (fuel : ℕ) (B : List ℚ), B.length ≤ fuel →
    wholeFrames analyse frame hop (B ++ Z).length (B ++ Z)
      = wholeFrames analyse frame hop fuel B ++
        wholeFrames analyse frame hop
          (B.drop (hop * (wholeFrames analyse frame hop fuel B).length) ++ Z).length
          (B.drop (hop * (wholeFrames analyse frame hop fuel B).length) ++ Z) := by
  intro fuel
  induction fuel with
  | zero =>
    intro B hB
    have : B = [] := List.length_eq_zero.1 (by omega)
    subst this
    simp [wholeFrames]
  | succ n ih =>
    intro B hB
    by_cases hf : frame ≤ B.length
    · have hstep : wholeFrames analyse frame hop (n + 1) B
          = analyse (B.take frame) :: wholeFrames analyse frame hop n (B.drop hop) := by
        rw [wholeFrames, if_pos hf]
      have hd : (B.drop hop).length ≤ n := by rw [List.length_drop]; omega
      have hlen : (B ++ Z).length = ((B ++ Z).length - 1) + 1 := by
        rw [List.length_append]; omega
      have hf2 : frame ≤ (B ++ Z).length := by rw [List.length_append]; omega
      have hfull : wholeFrames analyse frame hop (B ++ Z).length (B ++ Z)
          = analyse (B.take frame) ::
            wholeFrames analyse frame hop (B.drop hop ++ Z).length (B.drop hop ++ Z) := by
        rw [hlen, wholeFrames, if_pos (by omega)]
        have ht : (B ++ Z).take frame = B.take frame := List.take_append_of_le_length hf
        have hdr : (B ++ Z).drop hop = B.drop hop ++ Z :=
          List.drop_append_of_le_length (by omega)
        rw [ht, hdr]
        congr 1
        apply wholeFrames_fuel analyse frame hop h0 hle
        · simp only [List.length_append, List.length_drop]; omega
        · exact le_rfl
      rw [hfull, ih _ hd, hstep]
      simp only [List.length_cons, List.cons_append, List.drop_drop]
      have e : hop + hop * (wholeFrames analyse frame hop n (List.drop hop B)).length
          = hop * ((wholeFrames analyse frame hop n (List.drop hop B)).length + 1) := by ring
      rw [e]
    · have hstep : wholeFrames analyse frame hop (n + 1) B = [] := by
        rw [wholeFrames, if_neg hf]
      rw [hstep]
      simp

theorem wholeFrameCount_rest_lt (frame hop n : ℕ) (h0 : 0 < hop) (hle : hop ≤ frame) :
    n - hop * wholeFrameCount frame hop n < frame := by
  unfold wholeFrameCount
  split
  · simpa using ‹n < frame›
  · have h1 := Nat.div_add_mod (n - frame) hop
    have h2 := Nat.mod_lt (n - frame) h0
    rw [Nat.mul_add, Nat.mul_one]
    omega

/-- Analysis in two stages: frames and left-over buffer agree with analysis in one stage. -/
theorem buffered_stage (analyse : List ℚ → List ℚ) (frame hop : ℕ) (h0 : 0 < hop)
    (hle : hop ≤ frame) (B Z : List ℚ) :
    wholeFrames analyse frame hop (B ++ Z).length (B ++ Z)
      = wholeFrames analyse frame hop B.length B ++
        wholeFrames analyse frame hop
          (B.drop (hop * wholeFrameCount frame hop B.length) ++ Z).length
          (B.drop (hop * wholeFrameCount frame hop B.length) ++ Z) ∧
    (B ++ Z).drop (hop * wholeFrameCount frame hop (B ++ Z).length)
      = (B.drop (hop * wholeFrameCount frame hop B.length) ++ Z).drop
          (hop * wholeFrameCount frame hop
            (B.drop (hop * wholeFrameCount frame hop B.length) ++ Z).length) := by
  have happ := wholeFrames_append analyse frame hop h0 hle Z B.length B le_rfl
  rw [wholeFrames_length analyse frame hop h0 hle _ _ le_rfl] at happ
  refine ⟨happ, ?_⟩
  have hcnt := congrArg List.length happ
  rw [wholeFrames_length analyse frame hop h0 hle (B ++ Z).length (B ++ Z) le_rfl,
    List.length_append (wholeFrames analyse frame hop B.length B),
    wholeFrames_length analyse frame hop h0 hle B.length B le_rfl,
    wholeFrames_length analyse frame hop h0 hle _ _ le_rfl] at hcnt
  rw [hcnt, Nat.mul_add, ← List.drop_drop,
    List.drop_append_of_le_length (wholeFrameCount_mul_le frame hop B.length hle)]

theorem feedChunks_singleton (kf : KeyFinder) (chunk : AudioData) (ws : Workspace) :
    feedChunks kf [chunk] ws = progressiveChromagram kf chunk ws := by
  unfold feedChunks feedChunks
  cases progressiveChromagram kf chunk ws <;> rfl

/-- Feeding a list of chunks of one frame rate: the call sequence returns, and the workspace
it reaches is described by the carried remainder, the stream of decimated samples and the
frames of the buffered stream. -/
theorem feedChunks_ok (kf : KeyFinder) (fr : ℕ) (hf : 0 < downsampleFactor kf fr)
    (hH : 0 < kf.HOPSIZE) (hHF : kf.HOPSIZE ≤ kf.FFTFRAMESIZE) :
    ∀ (cs : List AudioData) (ws : Workspace),
    (∀ c ∈ cs, 1 ≤ c.channels ∧ c.frameRate = fr) →
    ws.remainderBuffer.FreshOrMono → ws.preprocessedBuffer.FreshOrMono →
    ws.preprocessedBuffer.getSampleCount < kf.FFTFRAMESIZE →
    ∃ ws1, feedChunks kf cs ws = .ok ws1 ∧
      ws1.remainderBuffer.samples = carriedRemainder (downsampleFactor kf fr)
        ws.remainderBuffer.samples (cs.map fun c => c.reduceToMono.samples) ∧
      ws1.remainderBuffer.FreshOrMono ∧
      ((ws.remainderBuffer.channels = 0 ∨ ws.remainderBuffer.frameRate = fr) →
        (ws1.remainderBuffer.channels = 0 ∨ ws1.remainderBuffer.frameRate = fr)) ∧
      (cs ≠ [] → ws1.preprocessedBuffer.channels = 1 ∧
        ws1.preprocessedBuffer.frameRate =
          (if ws.preprocessedBuffer.channels = 0 then fr / downsampleFactor kf fr
            else ws.preprocessedBuffer.frameRate)) ∧
      ws1.preprocessedBuffer.samples =
        (ws.preprocessedBuffer.samples ++ decimatedStream (filterDecimate kf fr)
          (downsampleFactor kf fr) ws.lpfBuffer ws.remainderBuffer.samples
          (cs.map fun c => c.reduceToMono.samples)).drop
          (kf.HOPSIZE * wholeFrameCount kf.FFTFRAMESIZE kf.HOPSIZE
            (ws.preprocessedBuffer.samples ++ decimatedStream (filterDecimate kf fr)
              (downsampleFactor kf fr) ws.lpfBuffer ws.remainderBuffer.samples
              (cs.map fun c => c.reduceToMono.samples)).length) ∧
      ws1.chromagram.getD [] = ws.chromagram.getD [] ++
        wholeFrames
          (kf.analyser (if ws.preprocessedBuffer.channels = 0 then fr / downsampleFactor kf fr
            else ws.preprocessedBuffer.frameRate))
          kf.FFTFRAMESIZE kf.HOPSIZE
          (ws.preprocessedBuffer.samples ++ decimatedStream (filterDecimate kf fr)
            (downsampleFactor kf fr) ws.lpfBuffer ws.remainderBuffer.samples
            (cs.map fun c => c.reduceToMono.samples)).length
          (ws.preprocessedBuffer.samples ++ decimatedStream (filterDecimate kf fr)
            (downsampleFactor kf fr) ws.lpfBuffer ws.remainderBuffer.samples
            (cs.map fun c => c.reduceToMono.samples)) := by
  intro cs
  induction cs with
  | nil =>
    intro ws _ hrem _ hlt
    have hcnt : wholeFrameCount kf.FFTFRAMESIZE kf.HOPSIZE ws.preprocessedBuffer.samples.length
        = 0 := by
      unfold wholeFrameCount
      rw [if_pos (show ws.preprocessedBuffer.samples.length < kf.FFTFRAMESIZE from hlt)]
    have hfr := wholeFrames_length
      (kf.analyser (if ws.preprocessedBuffer.channels = 0 then fr / downsampleFactor kf fr
        else ws.preprocessedBuffer.frameRate)) kf.FFTFRAMESIZE kf.HOPSIZE hH hHF
      ws.preprocessedBuffer.samples.length ws.preprocessedBuffer.samples le_rfl
    rw [hcnt] at hfr
    refine ⟨ws, rfl, rfl, hrem, id, fun h => absurd rfl h, ?_, ?_⟩
    · simp [decimatedStream, hcnt]
    · simp [decimatedStream, List.length_eq_zero.1 hfr]
  | cons c rest ih =>
    intro ws hcs hrem hpre hlt
    obtain ⟨hc1, hc2⟩ := hcs c (List.mem_cons_self _ _)
    subst hc2
    have hrest : ∀ c1 ∈ rest, 1 ≤ c1.channels ∧ c1.frameRate = c.frameRate :=
      fun c1 h => hcs c1 (List.mem_cons_of_mem _ h)
    obtain ⟨ws2, hp, hr1, hr2, hq1, hq2, hq3, hcg, hrr, hlb⟩ :=
      progressiveChromagram_ok kf c ws hc1 hf hH hHF hrem hpre
    have hlt2 : ws2.preprocessedBuffer.getSampleCount < kf.FFTFRAMESIZE := by
      simp only [AudioData.getSampleCount, hq3, List.length_drop]
      exact wholeFrameCount_rest_lt _ _ _ hH hHF
    obtain ⟨ws3, hfeed, hs1, hs2, hs3, hs4, hs5, hs6⟩ := ih ws2 hrest hr2 (Or.inr hq1) hlt2
    have hne : ws2.preprocessedBuffer.channels ≠ 0 := by omega
    rw [if_neg hne] at hs6
    have hws3 : ws3.preprocessedBuffer.channels = 1 ∧
        ws3.preprocessedBuffer.frameRate = ws2.preprocessedBuffer.frameRate := by
      by_cases hre : rest = []
      · subst hre
        have h2 : feedChunks kf [] ws2 = .ok ws2 := rfl
        rw [h2] at hfeed
        rw [← Except.ok.inj hfeed]
        exact ⟨hq1, rfl⟩
      · obtain ⟨h1, h2⟩ := hs4 hre
        rw [if_neg hne] at h2
        exact ⟨h1, h2⟩
    obtain ⟨hb1, hb2⟩ := buffered_stage (kf.analyser ws2.preprocessedBuffer.frameRate)
      kf.FFTFRAMESIZE kf.HOPSIZE hH hHF
      (ws.preprocessedBuffer.samples ++ decimatedSamples kf ws c)
      (decimatedStream (filterDecimate kf c.frameRate) (downsampleFactor kf c.frameRate)
        ws2.lpfBuffer ws2.remainderBuffer.samples (rest.map fun c => c.reduceToMono.samples))
    have hstream : ws.preprocessedBuffer.samples ++
        decimatedStream (filterDecimate kf c.frameRate) (downsampleFactor kf c.frameRate)
          ws.lpfBuffer ws.remainderBuffer.samples ((c :: rest).map fun c => c.reduceToMono.samples)
        = (ws.preprocessedBuffer.samples ++ decimatedSamples kf ws c) ++
          decimatedStream (filterDecimate kf c.frameRate) (downsampleFactor kf c.frameRate)
        ws2.lpfBuffer ws2.remainderBuffer.samples (rest.map fun c => c.reduceToMono.samples) := by
      rw [hr1, hlb, List.map_cons, decimatedStream, List.append_assoc]
      rfl
    refine ⟨ws3, ?_, ?_, hs2, fun h => hs3 (hrr h), fun _ => ⟨hws3.1, hws3.2.trans hq2⟩,
      ?_, ?_⟩
    · unfold feedChunks
      simp only [hp, bind, Except.bind]
      exact hfeed
    · rw [hs1, hr1, List.map_cons, carriedRemainder]
      rfl
    · rw [hs5, hstream, hb2, hq3]
    · rw [hs6, hstream, hcg, Option.getD_some, hq2] at *
      rw [← hq2, hb1, List.append_assoc, hq3]

/-! ### Lengths along a chunked run -/

theorem wholeMultiple_eq (f n : ℕ) : wholeMultiple f n = f * (n / f) := by
  unfold wholeMultiple
  have := Nat.div_add_mod n f
  omega

theorem wholeMultiple_le (f n : ℕ) : wholeMultiple f n ≤ n := by
  unfold wholeMultiple; omega

theorem decimate_length (f : ℕ) (xs : List ℚ) :
    (AudioData.decimate f xs).length = (xs.length + f - 1) / f := by
  simp [AudioData.decimate]

theorem filterDecimate_length (kf : KeyFinder) (fr : ℕ) (xs buffer : List ℚ)
    (hf : 0 < downsampleFactor kf fr) (hd : downsampleFactor kf fr ∣ xs.length) :
    (filterDecimate kf fr xs buffer).1.length = xs.length / downsampleFactor kf fr := by
  unfold filterDecimate
  rw [decimate_length, LowPassFilter.length_filter]
  obtain ⟨q, hq⟩ := hd
  rw [hq, Nat.add_sub_assoc hf, Nat.mul_add_div hf, Nat.mul_div_cancel_left _ hf,
    Nat.div_eq_of_lt (by omega)]
  rfl

theorem carriedRemainder_length (f : ℕ) (hf : 0 < f) : ∀ (ms : List (List ℚ)) (r : List ℚ),
    r.length < f →
    (carriedRemainder f r ms).length = (r.length + (ms.map List.length).sum) % f := by
  intro ms
  induction ms with
  | nil =>
    intro r hr
    simp [carriedRemainder, Nat.mod_eq_of_lt hr]
  | cons m ms ih =>
    intro r _
    have hlen : ((r ++ m).drop (wholeMultiple f (r ++ m).length)).length
        = (r.length + m.length) % f := by
      rw [List.length_drop, List.length_append]
      unfold wholeMultiple
      have := Nat.mod_le (r.length + m.length) f
      omega
    rw [carriedRemainder, ih _ (by rw [hlen]; exact Nat.mod_lt _ hf), hlen, List.map_cons,
      List.sum_cons, Nat.mod_add_mod, Nat.add_assoc]

theorem add_div_split (f a b : ℕ) (hf : 0 < f) : (a + b) / f = a / f + (a % f + b) / f := by
  have h := Nat.div_add_mod a f
  have e : a + b = f * (a / f) + (a % f + b) := by omega
  rw [e, Nat.mul_add_div hf]

theorem decimatedStream_length (g : List ℚ → List ℚ → List ℚ × List ℚ) (f : ℕ)
    (hf : 0 < f)
    (hg : ∀ xs s : List ℚ, f ∣ xs.length → (g xs s).1.length = xs.length / f) :
    ∀ (ms : List (List ℚ)) (s r : List ℚ), r.length < f →
    (decimatedStream g f s r ms).length = (r.length + (ms.map List.length).sum) / f := by
  intro ms
  induction ms with
  | nil =>
    intro s r hr
    simp [decimatedStream, Nat.div_eq_of_lt hr]
  | cons m ms ih =>
    intro s r _
    have hlen : ((r ++ m).drop (wholeMultiple f (r ++ m).length)).length
        = (r.length + m.length) % f := by
      rw [List.length_drop, List.length_append]
      unfold wholeMultiple
      have := Nat.mod_le (r.length + m.length) f
      omega
    have htake : ((r ++ m).take (wholeMultiple f (r ++ m).length)).length
        = f * ((r.length + m.length) / f) := by
      rw [List.length_take, Nat.min_eq_left (wholeMultiple_le _ _), wholeMultiple_eq,
        List.length_append]
    rw [decimatedStream, List.length_append, hg _ _ (by rw [htake]; exact Dvd.intro _ rfl),
      ih _ _ (by rw [hlen]; exact Nat.mod_lt _ hf), hlen, htake, Nat.mul_div_cancel_left _ hf,
      List.map_cons, List.sum_cons, ← Nat.add_assoc,
      add_div_split f (r.length + m.length) _ hf]

theorem monoChunks_map (fr : ℕ) (ms : List (List ℚ)) :
    ((ms.map fun s => (⟨s, 1, fr⟩ : AudioData)).map fun c => c.reduceToMono.samples) = ms := by
  rw [List.map_map]
  conv_rhs => rw [← List.map_id ms]
  apply List.map_congr_left
  intro s _
  simp [AudioData.reduceToMono]

/-- The lengths reached by feeding mono chunks to a fresh workspace. -/
theorem feedChunks_fresh_lengths (kf : KeyFinder) (fr : ℕ) (ms : List (List ℚ))
    (hf : 0 < downsampleFactor kf fr) (hH : 0 < kf.HOPSIZE)
    (hHF : kf.HOPSIZE ≤ kf.FFTFRAMESIZE) :
    ∃ ws, feedChunks kf (ms.map fun s => ⟨s, 1, fr⟩) Workspace.fresh = .ok ws ∧
      ws.remainderBuffer.getSampleCount = (ms.map List.length).sum % downsampleFactor kf fr ∧
      ws.hops = wholeFrameCount kf.FFTFRAMESIZE kf.HOPSIZE
        ((ms.map List.length).sum / downsampleFactor kf fr) ∧
      ws.preprocessedBuffer.getSampleCount + kf.HOPSIZE * ws.hops
        = (ms.map List.length).sum / downsampleFactor kf fr ∧
      ws.preprocessedBuffer.getSampleCount < kf.FFTFRAMESIZE := by
  have hcs : ∀ c ∈ ms.map (fun s => (⟨s, 1, fr⟩ : AudioData)),
      1 ≤ c.channels ∧ c.frameRate = fr := by
    intro c hc
    obtain ⟨s, _, rfl⟩ := List.mem_map.1 hc
    exact ⟨le_rfl, rfl⟩
  have hfresh : Workspace.fresh.preprocessedBuffer.getSampleCount < kf.FFTFRAMESIZE := by
    show 0 < kf.FFTFRAMESIZE
    omega
  obtain ⟨ws, hfeed, hs1, _, _, _, hs5, hs6⟩ := feedChunks_ok kf fr hf hH hHF _
    Workspace.fresh hcs (Or.inl ⟨rfl, rfl⟩) (Or.inl ⟨rfl, rfl⟩) hfresh
  rw [monoChunks_map] at hs1 hs5 hs6
  have hY : (decimatedStream (filterDecimate kf fr) (downsampleFactor kf fr) [] [] ms).length
      = (ms.map List.length).sum / downsampleFactor kf fr := by
    rw [decimatedStream_length _ _ hf
      (fun xs s hd => filterDecimate_length kf fr xs s hf hd) ms [] [] hf]
    simp
  have hrem : ws.remainderBuffer.getSampleCount
      = (ms.map List.length).sum % downsampleFactor kf fr := by
    have h0 : Workspace.fresh.remainderBuffer.samples = [] := rfl
    rw [AudioData.getSampleCount, hs1, h0, carriedRemainder_length _ hf ms [] hf]
    simp
  have h1 : Workspace.fresh.preprocessedBuffer.samples = [] := rfl
  have h2 : Workspace.fresh.remainderBuffer.samples = [] := rfl
  have h3 : Workspace.fresh.chromagram.getD [] = [] := rfl
  have h6 : Workspace.fresh.lpfBuffer = [] := rfl
  rw [h1, h2, h6, List.nil_append] at hs5 hs6
  rw [h3, List.nil_append] at hs6
  have hhops : ws.hops = wholeFrameCount kf.FFTFRAMESIZE kf.HOPSIZE
      ((ms.map List.length).sum / downsampleFactor kf fr) := by
    unfold Workspace.hops
    rw [hs6, wholeFrames_length _ _ _ hH hHF _ _ le_rfl, hY]
  have hpre : ws.preprocessedBuffer.getSampleCount
      = (ms.map List.length).sum / downsampleFactor kf fr
        - kf.HOPSIZE * wholeFrameCount kf.FFTFRAMESIZE kf.HOPSIZE
          ((ms.map List.length).sum / downsampleFactor kf fr) := by
    rw [AudioData.getSampleCount, hs5, List.length_drop, hY]
  have hmul := wholeFrameCount_mul_le kf.FFTFRAMESIZE kf.HOPSIZE
    ((ms.map List.length).sum / downsampleFactor kf fr) hHF
  have hlt := wholeFrameCount_rest_lt kf.FFTFRAMESIZE kf.HOPSIZE
    ((ms.map List.length).sum / downsampleFactor kf fr) hH hHF
  refine ⟨ws, hfeed, hrem, hhops, ?_, ?_⟩
  · rw [hhops, hpre]; omega
  · rw [hpre]; exact hlt

/-- C10: length-level chunking invariance. For a frame rate with positive decimation factor
`f` and mono chunks of total length `M`, fed in order to `progressiveChromagram` on a fresh
workspace, the run returns with `M mod f` samples in the remainder buffer,
`wholeFrameCount (M div f)` hops in the chromagram (none below `FFTFRAMESIZE` decimated
samples, `1 + (n - FFTFRAMESIZE) div HOPSIZE` otherwise), and a preprocessed buffer of fewer
than `FFTFRAMESIZE` samples which, with the `HOPSIZE * hops` consumed ones, accounts for
`M div f` decimated samples. One `progressiveChromagram` call on the concatenation of the
chunks returns with the same three quantities. -/
theorem chunked_lengths_invariant (kf : KeyFinder) (fr : ℕ) (chunks : List (List ℚ))
    (hf : 0 < downsampleFactor kf fr) (hH : 0 < kf.HOPSIZE)
    (hHF : kf.HOPSIZE ≤ kf.FFTFRAMESIZE) :
    ∃ ws wsOne,
      feedChunks kf (chunks.map fun s => ⟨s, 1, fr⟩) Workspace.fresh = .ok ws ∧
      progressiveChromagram kf ⟨chunks.flatten, 1, fr⟩ Workspace.fresh = .ok wsOne ∧
      ws.remainderBuffer.getSampleCount
        = (chunks.map List.length).sum % downsampleFactor kf fr ∧
      ws.hops = wholeFrameCount kf.FFTFRAMESIZE kf.HOPSIZE
        ((chunks.map List.length).sum / downsampleFactor kf fr) ∧
      ws.preprocessedBuffer.getSampleCount + kf.HOPSIZE * ws.hops
        = (chunks.map List.length).sum / downsampleFactor kf fr ∧
      ws.preprocessedBuffer.getSampleCount < kf.FFTFRAMESIZE ∧
      wsOne.remainderBuffer.getSampleCount = ws.remainderBuffer.getSampleCount ∧
      wsOne.hops = ws.hops ∧
      wsOne.preprocessedBuffer.getSampleCount = ws.preprocessedBuffer.getSampleCount := by
  obtain ⟨ws, h1, h2, h3, h4, h5⟩ := feedChunks_fresh_lengths kf fr chunks hf hH hHF
  obtain ⟨wsOne, g1, g2, g3, g4, _⟩ :=
    feedChunks_fresh_lengths kf fr [chunks.flatten] hf hH hHF
  have hsum : ([chunks.flatten].map List.length).sum = (chunks.map List.length).sum := by
    simp [List.length_flatten]
  rw [hsum] at g2 g3 g4
  rw [List.map_singleton, feedChunks_singleton] at g1
  refine ⟨ws, wsOne, h1, g1, h2, h3, h4, h5, ?_, ?_, ?_⟩
  · rw [g2, h2]
  · rw [g3, h3]
  · have hh : wsOne.hops = ws.hops := by rw [g3, h3]
    rw [hh] at g4
    omega

theorem chunked_lengths_invariant_witness :
    ∃ ws wsOne,
      feedChunks smallFinder
        ([List.replicate 33 1, List.replicate 32 2].map fun s => ⟨s, 1, 44100⟩)
        Workspace.fresh = .ok ws ∧
      progressiveChromagram smallFinder
        ⟨[List.replicate 33 1, List.replicate 32 2].flatten, 1, 44100⟩ Workspace.fresh
        = .ok wsOne ∧
      ws.remainderBuffer.getSampleCount
        = ([List.replicate 33 (1 : ℚ), List.replicate 32 2].map List.length).sum
          % downsampleFactor smallFinder 44100 ∧
      ws.hops = wholeFrameCount smallFinder.FFTFRAMESIZE smallFinder.HOPSIZE
        (([List.replicate 33 (1 : ℚ), List.replicate 32 2].map List.length).sum
          / downsampleFactor smallFinder 44100) ∧
      ws.preprocessedBuffer.getSampleCount + smallFinder.HOPSIZE * ws.hops
        = ([List.replicate 33 (1 : ℚ), List.replicate 32 2].map List.length).sum
          / downsampleFactor smallFinder 44100 ∧
      ws.preprocessedBuffer.getSampleCount < smallFinder.FFTFRAMESIZE ∧
      wsOne.remainderBuffer.getSampleCount = ws.remainderBuffer.getSampleCount ∧
      wsOne.hops = ws.hops ∧
      wsOne.preprocessedBuffer.getSampleCount = ws.preprocessedBuffer.getSampleCount :=
  chunked_lengths_invariant smallFinder 44100 [List.replicate 33 1, List.replicate 32 2]
    (by decide!) (by decide) (by decide)

/-! ### Chunking invariance of the chromagram -/

/-- With a streaming stage, the decimated stream of a chunked run is the stage applied once to
the whole multiple of the factor, and the carried remainder is the rest. -/
theorem decimatedStream_compat (g : List ℚ → List ℚ → List ℚ × List ℚ) (f : ℕ) (hf : 0 < f)
    (hnil : ∀ s, (g [] s).1 = [])
    (hg : ∀ s xs ys : List ℚ, f ∣ xs.length →
      (g (xs ++ ys) s).1 = (g xs s).1 ++ (g ys (g xs s).2).1) :
    ∀ (ms : List (List ℚ)) (s r : List ℚ), r.length < f →
    decimatedStream g f s r ms
        = (g ((r ++ ms.flatten).take (wholeMultiple f (r ++ ms.flatten).length)) s).1 ∧
    carriedRemainder f r ms
        = (r ++ ms.flatten).drop (wholeMultiple f (r ++ ms.flatten).length) := by
  intro ms
  induction ms with
  | nil =>
    intro s r hr
    have h0 : wholeMultiple f (r ++ ([] : List (List ℚ)).flatten).length = 0 := by
      rw [wholeMultiple_eq]
      simp [Nat.div_eq_of_lt hr]
    rw [h0]
    simp [decimatedStream, carriedRemainder, hnil]
  | cons m ms ih =>
    intro s r _
    have hlen : ((r ++ m).drop (wholeMultiple f (r ++ m).length)).length
        = (r ++ m).length % f := by
      rw [List.length_drop]
      unfold wholeMultiple
      have := Nat.mod_le (r ++ m).length f
      omega
    obtain ⟨ih1, ih2⟩ := ih
      (g ((r ++ m).take (wholeMultiple f (r ++ m).length)) s).2
      ((r ++ m).drop (wholeMultiple f (r ++ m).length))
      (by rw [hlen]; exact Nat.mod_lt _ hf)
    have hk : wholeMultiple f (r ++ m).length ≤ (r ++ m).length := wholeMultiple_le _ _
    have hsplit : wholeMultiple f (r ++ (m :: ms).flatten).length
        = wholeMultiple f (r ++ m).length
          + wholeMultiple f
            ((r ++ m).drop (wholeMultiple f (r ++ m).length) ++ ms.flatten).length := by
      have hA : (r ++ (m :: ms).flatten).length = (r ++ m).length + ms.flatten.length := by
        rw [List.flatten_cons, ← List.append_assoc, List.length_append (r ++ m)]
      have hB : ((r ++ m).drop (wholeMultiple f (r ++ m).length) ++ ms.flatten).length
          = (r ++ m).length % f + ms.flatten.length := by
        rw [List.length_append, hlen]
      rw [hA, hB, wholeMultiple_eq, wholeMultiple_eq, wholeMultiple_eq, ← Nat.mul_add,
        add_div_split f _ _ hf]
    have hw : r ++ (m :: ms).flatten = (r ++ m) ++ ms.flatten := by
      rw [List.flatten_cons, List.append_assoc]
    constructor
    · rw [decimatedStream, ih1, hsplit, hw, List.take_add,
        List.take_append_of_le_length hk, List.drop_append_of_le_length hk]
      refine (hg _ _ _ ?_).symm
      rw [List.length_take, Nat.min_eq_left hk, wholeMultiple_eq]
      exact Dvd.intro _ rfl
    · rw [carriedRemainder, ih2, hsplit, hw, ← List.drop_drop,
        List.drop_append_of_le_length hk]

theorem monoSamples_append (c : ℕ) (hc : 0 < c) (xs ys : List ℚ) (hd : c ∣ xs.length) :
    AudioData.monoSamples c (xs ++ ys)
      = AudioData.monoSamples c xs ++ AudioData.monoSamples c ys := by
  obtain ⟨q, hq⟩ := hd
  unfold AudioData.monoSamples
  have e1 : (xs ++ ys).length / c = q + ys.length / c := by
    rw [List.length_append, hq, Nat.mul_add_div hc]
  have e2 : xs.length / c = q := by rw [hq, Nat.mul_div_cancel_left _ hc]
  rw [e1, e2, List.range_add, List.map_append, List.map_map]
  congr 1
  · apply List.map_congr_left
    intro i hi
    have hi1 : i < q := List.mem_range.1 hi
    have h1 : i * c + c ≤ xs.length := by
      rw [hq]
      calc i * c + c = (i + 1) * c := by ring
        _ ≤ q * c := Nat.mul_le_mul_right c hi1
        _ = c * q := Nat.mul_comm _ _
    rw [List.drop_append_of_le_length (by omega), List.take_append_of_le_length
      (by rw [List.length_drop]; omega)]
  · apply List.map_congr_left
    intro j _
    have h2 : (q + j) * c = xs.length + j * c := by rw [hq]; ring
    simp only [Function.comp, h2, List.drop_append]

theorem decimate_append (f : ℕ) (hf : 0 < f) (xs ys : List ℚ) (hd : f ∣ xs.length) :
    AudioData.decimate f (xs ++ ys) = AudioData.decimate f xs ++ AudioData.decimate f ys := by
  obtain ⟨q, hq⟩ := hd
  unfold AudioData.decimate
  have e1 : ((xs ++ ys).length + f - 1) / f = q + (ys.length + f - 1) / f := by
    rw [List.length_append, hq, Nat.add_assoc, Nat.add_sub_assoc (by omega),
      Nat.mul_add_div hf]
  have e2 : (xs.length + f - 1) / f = q := by
    rw [hq, Nat.add_sub_assoc hf, Nat.mul_add_div hf, Nat.div_eq_of_lt (by omega)]
    rfl
  rw [e1, e2, List.range_add, List.map_append, List.map_map]
  congr 1
  · apply List.map_congr_left
    intro i hi
    have hi1 : i < q := List.mem_range.1 hi
    have h1 : i * f < xs.length := by
      rw [hq, Nat.mul_comm f q]
      exact Nat.mul_lt_mul_of_pos_right hi1 hf
    exact List.getD_append _ _ _ _ h1
  · apply List.map_congr_left
    intro j _
    have h2 : (q + j) * f = xs.length + j * f := by rw [hq]; ring
    simp only [Function.comp, h2]
    rw [List.getD_append_right _ _ _ _ (by omega), Nat.add_sub_cancel_left]

theorem reduceToMono_flatten (c fr : ℕ) (hc : 1 ≤ c) (parts : List (List ℚ))
    (hparts : ∀ p ∈ parts, c ∣ p.length) :
    (AudioData.reduceToMono ⟨parts.flatten, c, fr⟩).samples
      = (parts.map fun p => (AudioData.reduceToMono ⟨p, c, fr⟩).samples).flatten := by
  by_cases h2 : c < 2
  · simp [AudioData.reduceToMono, h2]
  · simp only [AudioData.reduceToMono, h2, if_false]
    induction parts with
    | nil => simp [AudioData.monoSamples]
    | cons p ps ih =>
      rw [List.flatten_cons, monoSamples_append c hc _ _ (hparts p (List.mem_cons_self _ _)),
        ih (fun q hq => hparts q (List.mem_cons_of_mem _ hq)), List.map_cons,
        List.flatten_cons]

theorem filterDecimate_nil (kf : KeyFinder) (fr : ℕ) (hf : 0 < downsampleFactor kf fr)
    (buffer : List ℚ) : (filterDecimate kf fr [] buffer).1 = [] := by
  apply List.length_eq_zero.1
  rw [filterDecimate_length kf fr [] buffer hf (by simp)]
  simp

/-- What a run of chunks from a fresh workspace leaves for the final call, in terms of the
mono signal `sig` made of all chunks. -/
theorem feedChunks_fresh_compat (kf : KeyFinder) (fr : ℕ) (cs : List AudioData)
    (sig : List ℚ) (hf : 0 < downsampleFactor kf fr) (hH : 0 < kf.HOPSIZE)
    (hHF : kf.HOPSIZE ≤ kf.FFTFRAMESIZE) (hF : kf.FFTFRAMESIZE < 4294967296)
    (hcompat : StreamingFilter kf fr)
    (hcs : ∀ c ∈ cs, 1 ≤ c.channels ∧ c.frameRate = fr)
    (hsig : (cs.map fun c => c.reduceToMono.samples).flatten = sig) :
    ∃ ws, feedChunks kf cs Workspace.fresh = .ok ws ∧
      ws.preprocessedBuffer.samples =
        (filterDecimate kf fr
          (sig.take (wholeMultiple (downsampleFactor kf fr) sig.length)) []).1.drop
          (kf.HOPSIZE * wholeFrameCount kf.FFTFRAMESIZE kf.HOPSIZE
            (filterDecimate kf fr
              (sig.take (wholeMultiple (downsampleFactor kf fr) sig.length)) []).1.length) ∧
      ws.chromagram.getD [] =
        wholeFrames (kf.analyser (fr / downsampleFactor kf fr)) kf.FFTFRAMESIZE kf.HOPSIZE
          (filterDecimate kf fr
            (sig.take (wholeMultiple (downsampleFactor kf fr) sig.length)) []).1.length
          (filterDecimate kf fr
            (sig.take (wholeMultiple (downsampleFactor kf fr) sig.length)) []).1 ∧
      (cs ≠ [] → ws.preprocessedBuffer.channels = 1 ∧
        ws.preprocessedBuffer.frameRate = fr / downsampleFactor kf fr) ∧
      ws.preprocessedBuffer.getSampleCount < 4294967296 ∧
      (ws.preprocessedBuffer.channels = 1 ∨ ws.preprocessedBuffer.samples = []) ∧
      (ws.remainderBuffer.samples = [] ∨ (ws.remainderBuffer.channels = 1 ∧
        0 < downsampleFactor kf ws.remainderBuffer.frameRate)) := by
  have hfresh : Workspace.fresh.preprocessedBuffer.getSampleCount < kf.FFTFRAMESIZE := by
    show 0 < kf.FFTFRAMESIZE
    omega
  obtain ⟨ws, hfeed, _, hs2, hs3, hs4, hs5, hs6⟩ := feedChunks_ok kf fr hf hH hHF cs
    Workspace.fresh hcs (Or.inl ⟨rfl, rfl⟩) (Or.inl ⟨rfl, rfl⟩) hfresh
  have h1 : Workspace.fresh.preprocessedBuffer.samples = [] := rfl
  have h2 : Workspace.fresh.remainderBuffer.samples = [] := rfl
  have h3 : Workspace.fresh.chromagram.getD [] = [] := rfl
  have h4 : Workspace.fresh.preprocessedBuffer.channels = 0 := rfl
  have h5 : Workspace.fresh.remainderBuffer.channels = 0 := rfl
  have h6 : Workspace.fresh.lpfBuffer = [] := rfl
  obtain ⟨hst, _⟩ := decimatedStream_compat (filterDecimate kf fr) (downsampleFactor kf fr) hf
    (filterDecimate_nil kf fr hf) hcompat (cs.map fun c => c.reduceToMono.samples) [] []
    (by simpa using hf)
  rw [List.nil_append, hsig] at hst
  rw [h1, h2, h6, List.nil_append, hst] at hs5 hs6
  rw [h3, List.nil_append, if_pos h4] at hs6
  rw [if_pos h4] at hs4
  have hlt : ws.preprocessedBuffer.getSampleCount < kf.FFTFRAMESIZE := by
    rw [AudioData.getSampleCount, hs5, List.length_drop]
    exact wholeFrameCount_rest_lt _ _ _ hH hHF
  refine ⟨ws, hfeed, hs5, hs6, hs4, by omega, ?_, ?_⟩
  · by_cases hne : cs = []
    · right
      subst hne
      have : feedChunks kf [] Workspace.fresh = .ok Workspace.fresh := rfl
      rw [this] at hfeed
      rw [← Except.ok.inj hfeed]
      rfl
    · exact Or.inl (hs4 hne).1
  · rcases hs3 (Or.inl h5) with h0 | hfr
    · rcases hs2 with ⟨_, hs⟩ | h1c
      · exact Or.inl hs
      · omega
    · rcases hs2 with ⟨_, hs⟩ | h1c
      · exact Or.inl hs
      · right
        rw [hfr]
        exact ⟨h1c, hf⟩

/-- Two workspaces that agree on the buffered samples and on the chromagram so far are taken
to the same chromagram by `finalChromagram`. -/
theorem finalChromagram_congr (kf : KeyFinder) (wa wb : Workspace)
    (hH : 0 < kf.HOPSIZE) (hHF : kf.HOPSIZE ≤ kf.FFTFRAMESIZE)
    (hF : kf.FFTFRAMESIZE < 4294967296)
    (hna : wa.preprocessedBuffer.getSampleCount < 4294967296)
    (hpa : wa.preprocessedBuffer.channels = 1 ∨ wa.preprocessedBuffer.samples = [])
    (hra : wa.remainderBuffer.samples = [] ∨ (wa.remainderBuffer.channels = 1 ∧
      0 < downsampleFactor kf wa.remainderBuffer.frameRate))
    (hpb : wb.preprocessedBuffer.channels = 1 ∨ wb.preprocessedBuffer.samples = [])
    (hrb : wb.remainderBuffer.samples = [] ∨ (wb.remainderBuffer.channels = 1 ∧
      0 < downsampleFactor kf wb.remainderBuffer.frameRate))
    (hs : wa.preprocessedBuffer.samples = wb.preprocessedBuffer.samples)
    (hg : wa.chromagram.getD [] = wb.chromagram.getD [])
    (hfmt : wa.preprocessedBuffer.frameRate = wb.preprocessedBuffer.frameRate ∨
      wa.preprocessedBuffer.samples = []) :
    ∃ w1 w2, finalChromagram kf wa = .ok w1 ∧ finalChromagram kf wb = .ok w2 ∧
      w1.chromagram = w2.chromagram := by
  have hnb : wb.preprocessedBuffer.getSampleCount < 4294967296 := by
    rw [AudioData.getSampleCount, ← hs]; exact hna
  obtain ⟨wa1, w1, _, ha1, _, _, hfa, hca, hla, _⟩ :=
    finalChromagram_ok kf wa hH hHF hF hna hpa hra
  obtain ⟨wb1, w2, _, hb1, _, _, hfb, hcb, hlb, _⟩ :=
    finalChromagram_ok kf wb hH hHF hF hnb hpb hrb
  refine ⟨w1, w2, hfa, hfb, ?_⟩
  rw [hca, hcb, hg]
  congr 2
  rcases hfmt with hfr | hnil
  · have hcnt : wa.preprocessedBuffer.getSampleCount = wb.preprocessedBuffer.getSampleCount := by
      rw [AudioData.getSampleCount, AudioData.getSampleCount, hs]
    simp only [chromagramOfWholeFrames, zeroPadding, AudioData.addToSampleCount, ha1, hb1,
      hs, hfr, hcnt]
  · have h0a : wa.preprocessedBuffer.getSampleCount = 0 := by
      simp [AudioData.getSampleCount, hnil]
    have h0b : wb.preprocessedBuffer.getSampleCount = 0 := by
      rw [AudioData.getSampleCount, ← hs]; exact h0a
    rw [h0a] at hla
    rw [h0b] at hlb
    have hz : ⌈((0 : ℕ) : ℚ) / (kf.HOPSIZE : ℚ)⌉₊ = 0 := by simp
    rw [hz] at hla hlb
    rw [List.length_eq_zero.1 hla, List.length_eq_zero.1 hlb]

/-- C1 (as amended): chunking invariance for a streaming low-pass filter. For a signal with
`c ≥ 1` channels cut at frame boundaries into consecutive chunks, a frame rate with positive
decimation factor, and a low-pass filter that is a streaming filter (its delay buffer carried
in the workspace makes filtering piece after piece, cut at multiples of the factor, agree
with filtering the whole), batch processing of the whole signal and progressive processing of
the chunks both return, with the same chromagram. -/
theorem chunking_invariance_streaming (kf : KeyFinder) (c fr : ℕ) (parts : List (List ℚ))
    (hc : 1 ≤ c) (hparts : ∀ p ∈ parts, c ∣ p.length)
    (hf : 0 < downsampleFactor kf fr) (hH : 0 < kf.HOPSIZE)
    (hHF : kf.HOPSIZE ≤ kf.FFTFRAMESIZE) (hF : kf.FFTFRAMESIZE < 4294967296)
    (hcompat : StreamingFilter kf fr) :
    ∃ w1 w2, batchRun kf ⟨parts.flatten, c, fr⟩ = .ok w1 ∧
      chunkedRun kf (parts.map fun p => ⟨p, c, fr⟩) = .ok w2 ∧
      w1.chromagram = w2.chromagram := by
  have hcsA : ∀ a ∈ [(⟨parts.flatten, c, fr⟩ : AudioData)], 1 ≤ a.channels ∧ a.frameRate = fr := by
    intro a ha
    rw [List.mem_singleton.1 ha]
    exact ⟨hc, rfl⟩
  have hcsB : ∀ a ∈ parts.map (fun p => (⟨p, c, fr⟩ : AudioData)),
      1 ≤ a.channels ∧ a.frameRate = fr := by
    intro a ha
    obtain ⟨p, _, rfl⟩ := List.mem_map.1 ha
    exact ⟨hc, rfl⟩
  have hsigA : ([(⟨parts.flatten, c, fr⟩ : AudioData)].map fun a => a.reduceToMono.samples).flatten
      = (AudioData.reduceToMono ⟨parts.flatten, c, fr⟩).samples := by
    simp
  have hsigB : ((parts.map fun p => (⟨p, c, fr⟩ : AudioData)).map
      fun a => a.reduceToMono.samples).flatten
      = (AudioData.reduceToMono ⟨parts.flatten, c, fr⟩).samples := by
    rw [List.map_map, reduceToMono_flatten c fr hc parts hparts]
    rfl
  obtain ⟨wa, hfa, ha1, ha2, ha3, ha4, ha5, ha6⟩ :=
    feedChunks_fresh_compat kf fr _ _ hf hH hHF hF hcompat hcsA hsigA
  obtain ⟨wb, hfb, hb1, hb2, hb3, hb4, hb5, hb6⟩ :=
    feedChunks_fresh_compat kf fr _ _ hf hH hHF hF hcompat hcsB hsigB
  rw [feedChunks_singleton] at hfa
  have hfmt : wa.preprocessedBuffer.frameRate = wb.preprocessedBuffer.frameRate ∨
      wa.preprocessedBuffer.samples = [] := by
    by_cases hne : parts = []
    · right
      subst hne
      have : feedChunks kf [] Workspace.fresh = .ok Workspace.fresh := rfl
      rw [List.map_nil, this] at hfb
      rw [ha1, ← hb1, ← Except.ok.inj hfb]
      rfl
    · left
      have hne2 : parts.map (fun p => (⟨p, c, fr⟩ : AudioData)) ≠ [] := by
        simpa using hne
      rw [(ha3 (List.cons_ne_nil _ _)).2, (hb3 hne2).2]
  obtain ⟨w1, w2, h1, h2, h3⟩ := finalChromagram_congr kf wa wb hH hHF hF ha4 ha5 ha6 hb5 hb6
    (ha1.trans hb1.symm) (ha2.trans hb2.symm) hfmt
  refine ⟨w1, w2, ?_, ?_, h3⟩
  · simp only [batchRun, hfa, bind, Except.bind]
    exact h1
  · simp only [chunkedRun, hfb, bind, Except.bind]
    exact h2

/-- An FIR filter that keeps its delay line from call to call gives, on `xs ++ ys`, its output
on `xs` followed by its output on `ys` with `xs` added to the history. -/
theorem firOutput_append (coeffs history xs ys : List ℚ) :
    firOutput coeffs history (xs ++ ys)
      = firOutput coeffs history xs ++ firOutput coeffs (history ++ xs) ys := by
  unfold firOutput
  rw [List.length_append, List.range_add, List.map_append, List.map_map]
  congr 1
  · apply List.map_congr_left
    intro i hi
    have hi1 : i < xs.length := List.mem_range.1 hi
    congr 1
    apply List.map_congr_left
    intro j _
    congr 1
    rw [← List.append_assoc]
    exact List.getD_append _ _ _ _ (by rw [List.length_append]; omega)
  · apply List.map_congr_left
    intro i _
    simp only [Function.comp, List.length_append, List.append_assoc]
    have e : history.length + (xs.length + i) + 1 = history.length + xs.length + i + 1 := by
      omega
    rw [e]
    congr 1
    apply List.map_congr_left
    intro j _
    have e2 : history.length + (xs.length + i) - j = history.length + xs.length + i - j := by
      omega
    rw [e2]

/-- The key finder with the delay line carried has a streaming filter at every frame rate
with positive decimation factor. -/
theorem streamingTwoTap_streaming (fr : ℕ)
    (hf : 0 < downsampleFactor streamingTwoTapFinder fr) :
    StreamingFilter streamingTwoTapFinder fr := by
  intro buffer xs ys hd
  show AudioData.decimate _ (firOutput _ buffer (xs ++ ys))
    = AudioData.decimate _ (firOutput _ buffer xs)
      ++ AudioData.decimate _ (firOutput _ (buffer ++ xs) ys)
  rw [firOutput_append]
  exact decimate_append _ hf _ _ (by simpa [firOutput] using hd)

theorem chunking_invariance_streaming_witness :
    ∃ w1 w2,
      batchRun streamingTwoTapFinder ⟨[[1, 3, 2, 2, 3, 1], [4, 4, 5, 7]].flatten, 2, 44⟩
        = .ok w1 ∧
      chunkedRun streamingTwoTapFinder
        ([[1, 3, 2, 2, 3, 1], [4, 4, 5, 7]].map fun p => ⟨p, 2, 44⟩) = .ok w2 ∧
      w1.chromagram = w2.chromagram :=
  chunking_invariance_streaming streamingTwoTapFinder 2 44 [[1, 3, 2, 2, 3, 1], [4, 4, 5, 7]]
    (by decide) (by decide) (by decide!) (by decide) (by decide) (by decide)
    (streamingTwoTap_streaming 44 (by decide!))

/-- C1 (counterexample): with an FIR filter of the requested order and coefficients
`1, 1, 0, …, 0` that is applied to each chunk on its own (decimation factor 1, frame of 2
samples, hop of 1 sample), the mono signal `[1, 1]` processed in one chunk gives the
chromagram `[3…, 2…]`, while the chunks `[1]`, `[1]` give `[2…, 1…]`. -/
theorem chunking_not_invariant_two_tap :
    [[(1 : ℚ)], [1]].flatten = [1, 1] ∧
    (batchRun twoTapFinder ⟨[1, 1], 1, 22⟩).toOption.map (fun w => w.chromagram)
      = some (some [List.replicate 12 3, List.replicate 12 2]) ∧
    (chunkedRun twoTapFinder [⟨[1], 1, 22⟩, ⟨[1], 1, 22⟩]).toOption.map
        (fun w => w.chromagram)
      = some (some [List.replicate 12 2, List.replicate 12 1]) ∧
    (batchRun twoTapFinder ⟨[1, 1], 1, 22⟩).toOption.map (fun w => w.chromagram)
      ≠ (chunkedRun twoTapFinder [⟨[1], 1, 22⟩, ⟨[1], 1, 22⟩]).toOption.map
        (fun w => w.chromagram) := by
  refine ⟨rfl, by decide!, by decide!, by decide!⟩

end LibKeyFinder
